import Mathlib

/-!
Verification of the server-side resource manager of the dining-philosophers
repository (NSY-103-Linux).

The embedding mirrors the following source files:
  * src/include/managers/ServerPhilosopher.c
      (getPhilosopherFromId, definePhilosopherRightChopstick,
       createPhilosopher, updatePhilosopher)
  * src/include/managers/Chopstick.c (createChopstick)
  * src/include/managers/SharedResources.c (attachSharedResources)
  * the entity headers Philosopher.h, Chopstick.h, ServerPhilosopher.h,
    SharedResources.h and maxmin_philosophers.h (MAX_PHILOSOPHERS = 7).

Modelling decisions:
  * Semaphores (sem_t) are modelled by their counter value (a Nat).
    Operations are executed one at a time (a serialized trace); a sem_wait
    on a zero-valued semaphore blocks the calling context forever in such a
    trace, so the whole operation is modelled as returning none: that
    execution never reaches another quiescent point.  The trywait-then-wait
    pattern of the source collapses to the same thing for a completed call.
  * Pointers into the shared chopstick table are modelled as Option (Fin 7)
    slot indices; none is the NULL pointer that memset leaves behind.
    Dereferencing a NULL pointer (a crash) is likewise modelled as none.
  * A createPhilosopher call with the table already at capacity would write
    out of bounds (undefined behaviour, nothing guards it in the source);
    it is modelled as none, i.e. no further quiescent state is claimed.
  * Every message sent to the log queue by the modelled functions is
    recorded, one constructor per call site, in source order.  The two
    waiting messages emitted just before a blocking sem_wait only occur on
    executions that never complete, and are therefore not recorded.
  * Ghost instrumentation: every sem_wait / sem_post on the admission gate
    or on a chopstick usage semaphore, and every overwrite of a stored
    Philosopher base, appends an Event.  This only makes the order of the
    acquisitions visible; it changes no behaviour.
-/

namespace DiningServer

/-- MAX_PHILOSOPHERS from maxmin_philosophers.h. -/
def MAX_PHILOSOPHERS : Nat := 7

/-- PhilosopherState from Philosopher.h. -/
inductive PhilosopherState where
  | THINKING
  | HUNGRY
  | EATING
deriving DecidableEq, Repr

/-- Philosopher from Philosopher.h. -/
structure Philosopher where
  id : Int
  state : PhilosopherState
  stateTimer : Int
deriving DecidableEq, Repr

/-- Chopstick from Chopstick.h: an id and the usage semaphore value. -/
structure Chopstick where
  id : Int
  usage : Nat
deriving DecidableEq, Repr

/-- ServerPhilosopher from ServerPhilosopher.h.  The chopstick pointers are
slot indices into the shared chopstick table; none is NULL. -/
structure ServerPhilosopher where
  base : Philosopher
  leftChopstick : Option (Fin 7)
  rightChopstick : Option (Fin 7)
deriving DecidableEq, Repr

/-- One constructor per log-queue call site of the modelled functions. -/
inductive LogMsg where
  | chopstickCreated (id : Int)
  | creatingPhilosopher (id : Int)
  | assignRightFirst (philId : Int)
  | assignRightPrev (chopId : Int) (prevPhilId : Int)
  | errorNotFound
  | leftReleasedInfo
  | leftReleasedServer (philId : Int) (chopId : Int)
  | rightReleasedInfo
  | rightReleasedServer (philId : Int) (chopId : Int)
  | counterReleasedInfo
  | counterReleasedServer (philId : Int)
  | clientAction (p : Philosopher)
  | gateTakenServer (philId : Int) (remaining : Nat)
  | leftTakenServer (philId : Int) (chopId : Int)
  | rightTakenServer (philId : Int) (chopId : Int)
deriving DecidableEq, Repr

/-- Ghost events: semaphore traffic on the gate and on chopstick usage
semaphores, and overwrites of a stored Philosopher base. -/
inductive Event where
  | overwriteBase (slot : Fin 7) (p : Philosopher)
  | acqGate
  | postGate
  | acqChop (slot : Fin 7)
  | postChop (slot : Fin 7)
deriving DecidableEq, Repr

/-- SharedResources from SharedResources.h, plus the log record list and the
ghost event trace. -/
structure SharedResources where
  maxAllowedEating : Nat
  philosopherCreationProcess : Nat
  philosophers : Fin 7 → ServerPhilosopher
  numberPhilosophers : Nat
  chopsticks : Fin 7 → Chopstick
  numberChopsticks : Nat
  logsQueueId : Int
  logs : List LogMsg
  events : List Event

/-- attachSharedResources (SharedResources.c): the shm segment arrives
zero-filled, the gate is initialised to 0, the creation lock to 1 and the
counters to 0.  A zeroed ServerPhilosopher has id 0, state THINKING
(enumerator 0), timer 0 and NULL chopstick pointers. -/
def attachSharedResources : SharedResources :=
  { maxAllowedEating := 0
    philosopherCreationProcess := 1
    philosophers := fun _ =>
      { base := { id := 0, state := .THINKING, stateTimer := 0 }
        leftChopstick := none
        rightChopstick := none }
    numberPhilosophers := 0
    chopsticks := fun _ => { id := 0, usage := 0 }
    numberChopsticks := 0
    logsQueueId := 0
    logs := []
    events := [] }

/-- getPhilosopherFromId (ServerPhilosopher.c): scan the whole table in slot
order, return the first slot whose stored id equals the requested id, or
none (NULL) when no slot matches. -/
def getPhilosopherFromId (id : Int) (philosophers : Fin 7 → ServerPhilosopher) :
    Option (Fin 7) :=
  (List.finRange 7).find? (fun i => (philosophers i).base.id == id)

/-- Table slot for a philosopher count (callers always have n < 7, in which
case this is just n). -/
def slotOf (n : Nat) : Fin 7 := ⟨n % 7, by omega⟩

/-- createChopstick (Chopstick.c): zero the struct, set the id, sem_init the
usage semaphore to 1, copy it into the shared table at slot id-1 and log the
creation.  An id outside [1, 7] would write out of bounds; callers guard it,
and the model then leaves the store untouched and yields no pointer. -/
def createChopstick (id : Int) (s : SharedResources) :
    SharedResources × Option (Fin 7) :=
  if 1 ≤ id ∧ id ≤ 7 then
    let slot : Fin 7 := slotOf (id - 1).toNat
    let chopstick : Chopstick := { id := id, usage := 1 }
    ({ s with
        chopsticks := Function.update s.chopsticks slot chopstick
        logs := s.logs ++ [LogMsg.chopstickCreated id] },
      some slot)
  else
    (s, none)

/-- definePhilosopherRightChopstick (ServerPhilosopher.c).  The new
philosopher is still the local struct of createPhilosopher, so it is taken
and returned by value; the store is updated for the predecessor repoint.
none models a blocked sem_wait or a NULL dereference (never reached from
the guarded caller). -/
def definePhilosopherRightChopstick (philosopher : ServerPhilosopher)
    (s : SharedResources) : Option (ServerPhilosopher × SharedResources) :=
  let lastPhilosopherId := s.numberPhilosophers
  if hprev : lastPhilosopherId - 1 < 7 then
    let prevIdx : Fin 7 := ⟨lastPhilosopherId - 1, hprev⟩
    let firstChopstick : Fin 7 := ⟨0, by omega⟩
    let s1 := { s with logs := s.logs ++ [LogMsg.assignRightFirst philosopher.base.id] }
    let philosopher1 := { philosopher with rightChopstick := some firstChopstick }
    match philosopher1.leftChopstick with
    | none => none
    | some leftSlot =>
      let s2 := { s1 with logs := s1.logs ++
          [LogMsg.assignRightPrev (s1.chopsticks leftSlot).id
            (s1.philosophers prevIdx).base.id] }
      if philosopher1.base.id == 2 then
        let idx0 : Fin 7 := ⟨0, by omega⟩
        let s3 := { s2 with
          philosophers := Function.update s2.philosophers idx0
            { s2.philosophers idx0 with rightChopstick := philosopher1.leftChopstick } }
        some (philosopher1, s3)
      else if philosopher1.base.id > 2 then
        match (s2.philosophers prevIdx).rightChopstick with
        | none => none
        | some oldRight =>
          if (s2.chopsticks oldRight).usage = 0 then none
          else
            let s3 := { s2 with
              chopsticks := Function.update s2.chopsticks oldRight
                { s2.chopsticks oldRight with usage := (s2.chopsticks oldRight).usage - 1 }
              events := s2.events ++ [Event.acqChop oldRight] }
            let s4 := { s3 with
              philosophers := Function.update s3.philosophers prevIdx
                { s3.philosophers prevIdx with rightChopstick := philosopher1.leftChopstick } }
            let s5 := { s4 with
              chopsticks := Function.update s4.chopsticks oldRight
                { s4.chopsticks oldRight with usage := (s4.chopsticks oldRight).usage + 1 }
              events := s4.events ++ [Event.postChop oldRight] }
            some (philosopher1, s5)
      else
        some (philosopher1, s2)
  else none

/-- createPhilosopher (ServerPhilosopher.c): serialize on the creation lock,
zero a local philosopher, give it id count+1, create and attach its left
chopstick, wire the right chopstick for every philosopher after the first,
append it to the table, bump the count and post the admission gate when the
new count is even.  A call at full capacity would write out of bounds and is
modelled as none. -/
def createPhilosopher (s : SharedResources) :
    Option (ServerPhilosopher × SharedResources) :=
  if s.philosopherCreationProcess = 0 then none
  else
    let s0 := { s with philosopherCreationProcess := s.philosopherCreationProcess - 1 }
    let lastPhilosopherId : Nat := s0.numberPhilosophers
    if hN : lastPhilosopherId < 7 then
      let philosopher : ServerPhilosopher :=
        { base := { id := (lastPhilosopherId : Int) + 1, state := .THINKING, stateTimer := 0 }
          leftChopstick := none
          rightChopstick := none }
      let s1 := { s0 with logs := s0.logs ++ [LogMsg.creatingPhilosopher philosopher.base.id] }
      let created := createChopstick philosopher.base.id s1
      let philosopher2 := { philosopher with leftChopstick := created.2 }
      let next : Option (ServerPhilosopher × SharedResources) :=
        if lastPhilosopherId > 0 then
          definePhilosopherRightChopstick philosopher2 created.1
        else
          some (philosopher2, created.1)
      match next with
      | none => none
      | some (philosopher3, s3) =>
        let s4 := { s3 with
          philosophers := Function.update s3.philosophers ⟨lastPhilosopherId, hN⟩ philosopher3
          numberPhilosophers := s3.numberPhilosophers + 1 }
        let s5 :=
          if s4.numberPhilosophers % 2 == 0 then
            { s4 with
              maxAllowedEating := s4.maxAllowedEating + 1
              events := s4.events ++ [Event.postGate] }
          else s4
        let s6 := { s5 with philosopherCreationProcess := s5.philosopherCreationProcess + 1 }
        some (philosopher3, s6)
    else none

/-- updatePhilosopher (ServerPhilosopher.c).  The outer none models a call
that blocks forever (or crashes on a NULL pointer) in a serialized trace;
a completed call yields the response owed to the client (none when nothing
is to be sent back, the updated philosopher for a Hungry grant) together
with the new store. -/
def updatePhilosopher (philosopher : Philosopher) (s : SharedResources) :
    Option (Option ServerPhilosopher × SharedResources) :=
  match getPhilosopherFromId philosopher.id s.philosophers with
  | none =>
    some (none, { s with logs := s.logs ++ [LogMsg.errorNotFound] })
  | some m =>
    match philosopher.state with
    | .THINKING =>
      if (s.philosophers m).base.state = .EATING then
        match (s.philosophers m).leftChopstick with
        | none => none
        | some l =>
          let s1 := { s with
            chopsticks := Function.update s.chopsticks l
              { s.chopsticks l with usage := (s.chopsticks l).usage + 1 }
            events := s.events ++ [Event.postChop l]
            logs := s.logs ++ [LogMsg.leftReleasedInfo,
              LogMsg.leftReleasedServer philosopher.id (s.chopsticks l).id] }
          match (s1.philosophers m).rightChopstick with
          | none => none
          | some r =>
            let s2 := { s1 with
              chopsticks := Function.update s1.chopsticks r
                { s1.chopsticks r with usage := (s1.chopsticks r).usage + 1 }
              events := s1.events ++ [Event.postChop r]
              logs := s1.logs ++ [LogMsg.rightReleasedInfo,
                LogMsg.rightReleasedServer philosopher.id (s1.chopsticks r).id] }
            let s3 := { s2 with
              maxAllowedEating := s2.maxAllowedEating + 1
              events := s2.events ++ [Event.postGate]
              logs := s2.logs ++ [LogMsg.counterReleasedInfo,
                LogMsg.counterReleasedServer philosopher.id] }
            let s4 := { s3 with
              philosophers := Function.update s3.philosophers m
                { s3.philosophers m with base := philosopher }
              events := s3.events ++ [Event.overwriteBase m philosopher]
              logs := s3.logs ++ [LogMsg.clientAction philosopher] }
            some (none, s4)
      else
        let s1 := { s with
          philosophers := Function.update s.philosophers m
            { s.philosophers m with base := philosopher }
          events := s.events ++ [Event.overwriteBase m philosopher]
          logs := s.logs ++ [LogMsg.clientAction philosopher] }
        some (none, s1)
    | .EATING =>
      let s1 := { s with
        philosophers := Function.update s.philosophers m
          { s.philosophers m with base := philosopher }
        events := s.events ++ [Event.overwriteBase m philosopher]
        logs := s.logs ++ [LogMsg.clientAction philosopher] }
      some (none, s1)
    | .HUNGRY =>
      let s1 := { s with
        philosophers := Function.update s.philosophers m
          { s.philosophers m with base := philosopher }
        events := s.events ++ [Event.overwriteBase m philosopher] }
      if s1.maxAllowedEating = 0 then none
      else
        let s2 := { s1 with
          maxAllowedEating := s1.maxAllowedEating - 1
          events := s1.events ++ [Event.acqGate] }
        let s3 := { s2 with
          logs := s2.logs ++ [LogMsg.gateTakenServer philosopher.id s2.maxAllowedEating] }
        match (s3.philosophers m).leftChopstick with
        | none => none
        | some l =>
          if (s3.chopsticks l).usage = 0 then none
          else
            let s4 := { s3 with
              chopsticks := Function.update s3.chopsticks l
                { s3.chopsticks l with usage := (s3.chopsticks l).usage - 1 }
              events := s3.events ++ [Event.acqChop l] }
            let s5 := { s4 with
              logs := s4.logs ++ [LogMsg.leftTakenServer philosopher.id (s4.chopsticks l).id] }
            match (s5.philosophers m).rightChopstick with
            | none => none
            | some r =>
              if (s5.chopsticks r).usage = 0 then none
              else
                let s6 := { s5 with
                  chopsticks := Function.update s5.chopsticks r
                    { s5.chopsticks r with usage := (s5.chopsticks r).usage - 1 }
                  events := s5.events ++ [Event.acqChop r] }
                let s7 := { s6 with
                  logs := s6.logs ++ [LogMsg.rightTakenServer philosopher.id (s6.chopsticks r).id] }
                let updated : ServerPhilosopher :=
                  { s7.philosophers m with base :=
                      { (s7.philosophers m).base with state := .EATING, stateTimer := 0 } }
                let s8 := { s7 with philosophers := Function.update s7.philosophers m updated }
                some (some updated, s8)

/-- One serialized request against the manager: a join or a state update. -/
inductive Op where
  | create
  | update (p : Philosopher)
deriving DecidableEq, Repr

/-- Effect of one completed operation on the store. -/
def step (s : SharedResources) : Op → Option SharedResources
  | .create => (createPhilosopher s).map (fun r => r.2)
  | .update p => (updatePhilosopher p s).map (fun r => r.2)

/-- A serialized trace of operations; some s means every operation completed
and s is the store at the final quiescent point. -/
def run : SharedResources → List Op → Option SharedResources
  | s, [] => some s
  | s, op :: ops => (step s op).bind (fun s1 => run s1 ops)

/-- The store after k createPhilosopher calls on a freshly attached store. -/
def createN (k : Nat) : Option SharedResources :=
  run attachSharedResources (List.replicate k Op.create)

/-- Number of table slots whose stored state is EATING. -/
def countEating (s : SharedResources) : Nat :=
  ∑ i : Fin 7, if (s.philosophers i).base.state = .EATING then 1 else 0

/-- Number of stored-EATING slots whose left or right pointer references
chopstick slot c: the holders of that chopstick. -/
def holders (s : SharedResources) (c : Fin 7) : Nat :=
  ∑ i : Fin 7,
    if (s.philosophers i).base.state = .EATING ∧
        ((s.philosophers i).leftChopstick = some c ∨
         (s.philosophers i).rightChopstick = some c) then 1 else 0

/-- Store after a completed update on a missing identity: only the error
record is appended. -/
def notFoundState (s : SharedResources) : SharedResources :=
  { s with logs := s.logs ++ [LogMsg.errorNotFound] }

/-- Store after a plain base overwrite of slot m (the Thinking branch
without a release, and the Eating acknowledgment branch). -/
def overwriteState (p : Philosopher) (s : SharedResources) (m : Fin 7) :
    SharedResources :=
  { s with
    philosophers := Function.update s.philosophers m
      { s.philosophers m with base := p }
    events := s.events ++ [Event.overwriteBase m p]
    logs := s.logs ++ [LogMsg.clientAction p] }

/-- Store after a completed Eating-to-Thinking release on slot m with left
chopstick l and right chopstick r. -/
def releaseState (p : Philosopher) (s : SharedResources) (m : Fin 7) (l r : Fin 7) :
    SharedResources :=
  let c1 := Function.update s.chopsticks l
    { s.chopsticks l with usage := (s.chopsticks l).usage + 1 }
  let c2 := Function.update c1 r { c1 r with usage := (c1 r).usage + 1 }
  { s with
    maxAllowedEating := s.maxAllowedEating + 1
    chopsticks := c2
    philosophers := Function.update s.philosophers m
      { s.philosophers m with base := p }
    events := s.events ++ [Event.postChop l, Event.postChop r, Event.postGate,
      Event.overwriteBase m p]
    logs := s.logs ++ [LogMsg.leftReleasedInfo,
      LogMsg.leftReleasedServer p.id (s.chopsticks l).id,
      LogMsg.rightReleasedInfo,
      LogMsg.rightReleasedServer p.id (c1 r).id,
      LogMsg.counterReleasedInfo,
      LogMsg.counterReleasedServer p.id,
      LogMsg.clientAction p] }

/-- Store after a completed Hungry grant on slot m with left chopstick l and
right chopstick r. -/
def hungryState (p : Philosopher) (s : SharedResources) (m : Fin 7) (l r : Fin 7) :
    SharedResources :=
  let c1 := Function.update s.chopsticks l
    { s.chopsticks l with usage := (s.chopsticks l).usage - 1 }
  let c2 := Function.update c1 r { c1 r with usage := (c1 r).usage - 1 }
  { s with
    maxAllowedEating := s.maxAllowedEating - 1
    chopsticks := c2
    philosophers := Function.update s.philosophers m
      { s.philosophers m with base := { id := p.id, state := .EATING, stateTimer := 0 } }
    events := s.events ++ [Event.overwriteBase m p, Event.acqGate,
      Event.acqChop l, Event.acqChop r]
    logs := s.logs ++ [LogMsg.gateTakenServer p.id (s.maxAllowedEating - 1),
      LogMsg.leftTakenServer p.id (s.chopsticks l).id,
      LogMsg.rightTakenServer p.id (c1 r).id] }

/-- The philosopher value returned by a Hungry grant on slot m. -/
def grantedPhilosopher (p : Philosopher) (s : SharedResources) (m : Fin 7) :
    ServerPhilosopher :=
  { s.philosophers m with base := { id := p.id, state := .EATING, stateTimer := 0 } }

/-- The philosopher struct built by createPhilosopher when the store holds
count philosophers already (left chopstick freshly created at that slot; the
right chopstick is wired only from the second join on). -/
def newPhilosopherFirst : ServerPhilosopher :=
  { base := { id := 1, state := .THINKING, stateTimer := 0 }
    leftChopstick := some (slotOf 0)
    rightChopstick := none }

/-- The philosopher struct built by a join after the first: left chopstick
at slot count, right chopstick always the first chopstick. -/
def newPhilosopherLater (count : Nat) : ServerPhilosopher :=
  { base := { id := (count : Int) + 1, state := .THINKING, stateTimer := 0 }
    leftChopstick := some (slotOf count)
    rightChopstick := some ⟨0, by omega⟩ }

/-- Store after the very first join (count 0): chopstick 1 created, the new
philosopher stored at slot 0, count 1, no gate post (1 is odd). -/
def createStateFirst (s : SharedResources) : SharedResources :=
  { s with
    chopsticks := Function.update s.chopsticks (slotOf 0) { id := 1, usage := 1 }
    philosophers := Function.update s.philosophers (slotOf 0) newPhilosopherFirst
    numberPhilosophers := s.numberPhilosophers + 1
    logs := s.logs ++ [LogMsg.creatingPhilosopher 1, LogMsg.chopstickCreated 1] }

/-- Store after the second join (count 1): chopstick 2 created, philosopher
1 gets it as right chopstick directly (no lock is taken), the new
philosopher is stored at slot 1, count 2, and the gate is posted. -/
def createStateSecond (s : SharedResources) : SharedResources :=
  let ph1 := Function.update s.philosophers (slotOf 0)
    { s.philosophers (slotOf 0) with rightChopstick := some (slotOf 1) }
  { s with
    chopsticks := Function.update s.chopsticks (slotOf 1) { id := 2, usage := 1 }
    philosophers := Function.update ph1 (slotOf 1) (newPhilosopherLater 1)
    numberPhilosophers := s.numberPhilosophers + 1
    maxAllowedEating := s.maxAllowedEating + 1
    events := s.events ++ [Event.postGate]
    logs := s.logs ++ [LogMsg.creatingPhilosopher 2, LogMsg.chopstickCreated 2,
      LogMsg.assignRightFirst 2,
      LogMsg.assignRightPrev 2 (s.philosophers (slotOf 0)).base.id] }

/-- Store after a join beyond the second (count at least 2): the previous
last philosopher's old right chopstick c is locked, its right reference is
repointed to the fresh chopstick, the lock is released, the new philosopher
is stored, and the gate is posted exactly when the new count is even. -/
def createStateLater (s : SharedResources) (c : Fin 7) : SharedResources :=
  let count := s.numberPhilosophers
  let slotN := slotOf count
  let prevIdx := slotOf (count - 1)
  let cs1 := Function.update s.chopsticks slotN { id := (count : Int) + 1, usage := 1 }
  let cs2 := Function.update cs1 c { cs1 c with usage := (cs1 c).usage - 1 }
  let cs3 := Function.update cs2 c { cs2 c with usage := (cs2 c).usage + 1 }
  let ph1 := Function.update s.philosophers prevIdx
    { s.philosophers prevIdx with rightChopstick := some slotN }
  let ph2 := Function.update ph1 slotN (newPhilosopherLater count)
  { s with
    chopsticks := cs3
    philosophers := ph2
    numberPhilosophers := count + 1
    maxAllowedEating :=
      if (count + 1) % 2 == 0 then s.maxAllowedEating + 1 else s.maxAllowedEating
    events := (s.events ++ [Event.acqChop c, Event.postChop c])
      ++ (if (count + 1) % 2 == 0 then [Event.postGate] else [])
    logs := s.logs ++ [LogMsg.creatingPhilosopher ((count : Int) + 1),
      LogMsg.chopstickCreated ((count : Int) + 1),
      LogMsg.assignRightFirst ((count : Int) + 1),
      LogMsg.assignRightPrev ((count : Int) + 1) (s.philosophers prevIdx).base.id] }

/-- Structural invariant of every store reachable by completed operations:
the count stays within capacity, the creation lock is free between
operations, slots beyond the count are still zeroed (NULL pointers), every
joined philosopher has a left chopstick inside the created range, right
references stay inside the created range and never alias the left one, and
from the second join on every joined philosopher has a right chopstick. -/
def InvS (s : SharedResources) : Prop :=
  s.numberPhilosophers ≤ 7 ∧
  s.philosopherCreationProcess = 1 ∧
  (∀ i : Fin 7, s.numberPhilosophers ≤ i.val →
    (s.philosophers i).leftChopstick = none ∧ (s.philosophers i).rightChopstick = none) ∧
  (∀ i : Fin 7, i.val < s.numberPhilosophers →
    ∃ l : Fin 7, (s.philosophers i).leftChopstick = some l ∧
      l.val < s.numberPhilosophers) ∧
  (∀ i : Fin 7, ∀ r : Fin 7, (s.philosophers i).rightChopstick = some r →
    r.val < s.numberPhilosophers ∧ (s.philosophers i).leftChopstick ≠ some r) ∧
  (2 ≤ s.numberPhilosophers → ∀ i : Fin 7, i.val < s.numberPhilosophers →
    (s.philosophers i).rightChopstick ≠ none)

/-- Admission-gate accounting invariant: the gate value plus the number of
stored-EATING slots equals floor(count / 2); slots beyond the count are not
EATING; every created chopstick is unlocked exactly when nobody holds it
(usage + holders = 1); chopstick slots beyond the count still hold the
zeroed semaphore. -/
def InvG (s : SharedResources) : Prop :=
  s.maxAllowedEating + countEating s = s.numberPhilosophers / 2 ∧
  (∀ i : Fin 7, s.numberPhilosophers ≤ i.val →
    (s.philosophers i).base.state ≠ .EATING) ∧
  (∀ c : Fin 7, c.val < s.numberPhilosophers →
    (s.chopsticks c).usage + holders s c = 1) ∧
  (∀ c : Fin 7, s.numberPhilosophers ≤ c.val → (s.chopsticks c).usage = 0)

/-- An incoming-EATING update is an acknowledgment: it targets a philosopher
already stored as EATING (updates on a missing identity only log an error
and are harmless). -/
def ackOkB (s : SharedResources) : Op → Bool
  | .create => true
  | .update p =>
    if p.state == PhilosopherState.EATING then
      match getPhilosopherFromId p.id s.philosophers with
      | some m => (s.philosophers m).base.state == PhilosopherState.EATING
      | none => true
    else true

/-- Every incoming-EATING update along the trace is an acknowledgment. -/
def acksOnlyB : SharedResources → List Op → Bool
  | _, [] => true
  | s, op :: ops =>
    ackOkB s op &&
      (match step s op with
       | none => true
       | some s1 => acksOnlyB s1 ops)

/-- The philosopher stored at 0-based slot n, when n is a valid slot. -/
def philAt (s : SharedResources) (n : Nat) : Option ServerPhilosopher :=
  if h : n < 7 then some (s.philosophers ⟨n, h⟩) else none

/-- Successor of a chopstick slot in the graph induced by right references:
the right chopstick of the (first) created participant whose left chopstick
is c. -/
def rightSuccChop (s : SharedResources) (c : Fin 7) : Option (Fin 7) :=
  match (List.finRange 7).find? (fun i =>
    decide (i.val < s.numberPhilosophers) &&
      ((s.philosophers i).leftChopstick == some c)) with
  | some i => (s.philosophers i).rightChopstick
  | none => none

/-- Orbit of a chopstick slot under rightSuccChop, for a bounded number of
steps; stops early on a missing successor. -/
def chopOrbit (s : SharedResources) : Nat → Option (Fin 7) → List (Fin 7)
  | 0, _ => []
  | _ + 1, none => []
  | n + 1, some c => c :: chopOrbit s n (rightSuccChop s c)

/-- The full ring property claimed for the chopstick topology: every created
participant has non-null left and right references, participant n's right
chopstick is participant (n+1 mod N)'s left chopstick (wraparound included),
and the right-reference successor graph forms one cycle of length N covering
exactly the created participants' left chopsticks. -/
def ringOkB (s : SharedResources) : Bool :=
  let N := s.numberPhilosophers
  ((List.range N).all (fun n =>
    match philAt s n with
    | some ph => (ph.leftChopstick != none) && (ph.rightChopstick != none)
    | none => false)) &&
  ((List.range N).all (fun n =>
    match philAt s n, philAt s ((n + 1) % N) with
    | some ph, some ph2 => ph.rightChopstick == ph2.leftChopstick
    | _, _ => false)) &&
  (match philAt s 0 with
   | some ph0 =>
     let orbit := chopOrbit s N ph0.leftChopstick
     (orbit.length == N) &&
     (decide orbit.Nodup) &&
     ((List.range N).all (fun n =>
        match philAt s n with
        | some ph =>
          match ph.leftChopstick with
          | some l => orbit.contains l
          | none => false
        | none => false)) &&
     (orbit.all (fun cslot => (List.range N).any (fun n =>
        match philAt s n with
        | some ph => ph.leftChopstick == some cslot
        | none => false))) &&
     (match orbit.getLast? with
      | some lastc => rightSuccChop s lastc == ph0.leftChopstick
      | none => N == 0)
   | none => false)

/-- Operation list violating the claimed gate identity: after two joins, an
incoming-EATING update on participant 1 (stored THINKING) marks it EATING
without touching the gate. -/
def c1CexOps : List Op :=
  [Op.create, Op.create, Op.update { id := 1, state := .EATING, stateTimer := 5 }]

/-- Gate identity evaluated after the violating trace (true when the trace
blocks, so falsity exhibits a completed violating trace). -/
def c1CexB : Bool :=
  match run attachSharedResources c1CexOps with
  | some s => s.maxAllowedEating + countEating s == s.numberPhilosophers / 2
  | none => true

/-- A completed trace with only acknowledgment-EATING updates, used to
witness the amended gate identity. -/
def c1WitnessOps : List Op :=
  [Op.create, Op.create, Op.update { id := 1, state := .HUNGRY, stateTimer := 3 }]

/-- The claimed ring property evaluated after a single join (true when the
run blocks). -/
def c2CexB : Bool :=
  match createN 1 with
  | some s => ringOkB s
  | none => true

/-- The store after two joins, used for the Hungry-grant scenarios. -/
def c3S : SharedResources := (createN 2).getD attachSharedResources

/-- The Hungry update sent to participant 1 in the grant scenario. -/
def c3Update : Philosopher := { id := 1, state := .HUNGRY, stateTimer := 3 }

/-- The claimed N=2 scenario: participant 1's right chopstick equals
participant 2's left chopstick, that chopstick has id 1, and participant
2's right chopstick equals participant 1's left chopstick. -/
def c7ClaimB : Bool :=
  match createN 2 with
  | some s =>
    ((s.philosophers 0).rightChopstick == (s.philosophers 1).leftChopstick) &&
    (match (s.philosophers 0).rightChopstick with
     | some cc => (s.chopsticks cc).id == 1
     | none => false) &&
    ((s.philosophers 1).rightChopstick == (s.philosophers 0).leftChopstick)
  | none => false

/-- The N=2 scenario with the shared chopstick's true id (2). -/
def c7AmendedB : Bool :=
  match createN 2 with
  | some s =>
    ((s.philosophers 0).rightChopstick == (s.philosophers 1).leftChopstick) &&
    (match (s.philosophers 0).rightChopstick with
     | some cc => (s.chopsticks cc).id == 2
     | none => false) &&
    ((s.philosophers 1).rightChopstick == (s.philosophers 0).leftChopstick)
  | none => false

/-- Non-null right reference of the first participant right after its own
join, while it is still alone (true when the run blocks). -/
def c8CexB : Bool :=
  match createN 1 with
  | some s => (s.philosophers 0).rightChopstick != none
  | none => true

/-- A two-participant store whose participant 1 is stored as HUNGRY, the
stored state an in-flight Hungry update leaves behind. -/
def c6State : SharedResources :=
  match createN 2 with
  | some s => { s with philosophers := Function.update s.philosophers 0 { s.philosophers 0 with base := { id := 1, state := .HUNGRY, stateTimer := 4 } } }
  | none => attachSharedResources

/-- Premises of the Hungry-to-Hungry idempotence claim at the concrete
store: the update target exists and is stored HUNGRY. -/
def c6PremiseB : Bool :=
  (getPhilosopherFromId 1 c6State.philosophers == some 0) &&
  ((c6State.philosophers 0).base.state == PhilosopherState.HUNGRY)

/-- Whether a Hungry-to-Hungry update at the concrete store leaves the
admission gate untouched (true when the update blocks). -/
def c6NoSideEffectB : Bool :=
  match updatePhilosopher { id := 1, state := .HUNGRY, stateTimer := 9 } c6State with
  | some (_, s1) => s1.maxAllowedEating == c6State.maxAllowedEating
  | none => true

/-- The store after a single join, whose participant 1 is stored THINKING. -/
def c6WitnessS : SharedResources := (createN 1).getD attachSharedResources

/-- Behaviour of an identity-0 update after k joins: it matches the first
unoccupied slot k, skips the unknown-identity error branch, overwrites that
slot and logs no error record. -/
def c9CheckB (k : Fin 7) : Bool :=
  match createN k.val with
  | some s =>
    (getPhilosopherFromId 0 s.philosophers == some ⟨k.val, k.isLt⟩) &&
    (decide (s.numberPhilosophers = k.val)) &&
    (match updatePhilosopher { id := 0, state := .THINKING, stateTimer := 5 } s with
     | some (resp, s1) =>
       (resp == none) &&
       ((s1.philosophers ⟨k.val, k.isLt⟩).base
          == { id := 0, state := .THINKING, stateTimer := 5 }) &&
       (s1.logs == s.logs
          ++ [LogMsg.clientAction { id := 0, state := .THINKING, stateTimer := 5 }])
     | none => false)
  | none => false

/-- Id-equals-slot-plus-one correspondence after k joins: participant ids
are 1..k at slots 0..k-1, participant i+1's left chopstick is chopstick
slot i holding id i+1, slots beyond k are zeroed, and exactly k chopstick
slots are initialized. -/
def c10CheckB (k : Fin 8) : Bool :=
  match createN k.val with
  | some s =>
    (decide (s.numberPhilosophers = k.val)) &&
    ((List.finRange 7).all (fun i =>
      if i.val < k.val then
        ((s.philosophers i).base.id == (i.val : Int) + 1) &&
        ((s.philosophers i).leftChopstick == some i) &&
        ((s.chopsticks i).id == (i.val : Int) + 1)
      else
        ((s.philosophers i).base.id == 0) && ((s.chopsticks i).id == 0))) &&
    (((List.finRange 7).filter (fun c => (s.chopsticks c).id != 0)).length == k.val)
  | none => false

/-! ### Characterization of the operation branches -/

theorem updatePhilosopher_notFound (p : Philosopher) (s : SharedResources)
    (h : getPhilosopherFromId p.id s.philosophers = none) :
    updatePhilosopher p s = some (none, notFoundState s) := by
  unfold updatePhilosopher notFoundState
  rw [h]

theorem updatePhilosopher_ackEating (p : Philosopher) (s : SharedResources) (m : Fin 7)
    (hm : getPhilosopherFromId p.id s.philosophers = some m)
    (hp : p.state = .EATING) :
    updatePhilosopher p s = some (none, overwriteState p s m) := by
  unfold updatePhilosopher overwriteState
  rw [hm, hp]

theorem updatePhilosopher_thinkingPlain (p : Philosopher) (s : SharedResources) (m : Fin 7)
    (hm : getPhilosopherFromId p.id s.philosophers = some m)
    (hp : p.state = .THINKING)
    (hst : (s.philosophers m).base.state ≠ .EATING) :
    updatePhilosopher p s = some (none, overwriteState p s m) := by
  unfold updatePhilosopher overwriteState
  rw [hm, hp]
  simp [hst]

theorem update_release_inv (p : Philosopher) (s : SharedResources)
    (res : Option ServerPhilosopher × SharedResources) (m : Fin 7)
    (hp : p.state = .THINKING)
    (hm : getPhilosopherFromId p.id s.philosophers = some m)
    (hst : (s.philosophers m).base.state = .EATING)
    (h : updatePhilosopher p s = some res) :
    ∃ l r : Fin 7,
      (s.philosophers m).leftChopstick = some l ∧
      (s.philosophers m).rightChopstick = some r ∧
      res = (none, releaseState p s m l r) := by
  unfold updatePhilosopher at h
  rw [hm, hp] at h
  simp only [] at h
  rw [if_pos hst] at h
  split at h
  · exact absurd h (by simp)
  case _ l hl =>
    split at h
    · exact absurd h (by simp)
    case _ r hr =>
      refine ⟨l, r, hl, ?_, ?_⟩
      · simpa using hr
      · injection h with h2
        rw [← h2]
        unfold releaseState
        simp

theorem update_hungry_inv (p : Philosopher) (s : SharedResources)
    (res : Option ServerPhilosopher × SharedResources) (m : Fin 7)
    (hp : p.state = .HUNGRY)
    (hm : getPhilosopherFromId p.id s.philosophers = some m)
    (h : updatePhilosopher p s = some res) :
    ∃ l r : Fin 7,
      (s.philosophers m).leftChopstick = some l ∧
      (s.philosophers m).rightChopstick = some r ∧
      s.maxAllowedEating ≠ 0 ∧
      (s.chopsticks l).usage ≠ 0 ∧
      (Function.update s.chopsticks l
        { s.chopsticks l with usage := (s.chopsticks l).usage - 1 } r).usage ≠ 0 ∧
      res = (some (grantedPhilosopher p s m), hungryState p s m l r) := by
  unfold updatePhilosopher at h
  rw [hm, hp] at h
  simp only [Function.update_same] at h
  split at h
  · exact absurd h (by simp)
  case _ hg =>
    split at h
    · exact absurd h (by simp)
    case _ l hl =>
      split at h
      · exact absurd h (by simp)
      case _ hul =>
        split at h
        · exact absurd h (by simp)
        case _ r hr =>
          split at h
          · exact absurd h (by simp)
          case _ hur =>
            refine ⟨l, r, hl, hr, hg, hul, ?_, ?_⟩
            · simpa using hur
            · injection h with h2
              rw [← h2]
              unfold hungryState grantedPhilosopher
              simp [Function.update_same]

theorem createPhilosopher_first (s : SharedResources)
    (hc : s.philosopherCreationProcess ≠ 0)
    (h0 : s.numberPhilosophers = 0) :
    createPhilosopher s = some (newPhilosopherFirst, createStateFirst s) := by
  unfold createPhilosopher createChopstick createStateFirst newPhilosopherFirst slotOf
  rw [if_neg hc]
  simp [h0]
  omega

theorem slotOf_eq (n : Nat) (h : n < 7) : slotOf n = ⟨n, h⟩ := by
  simp [slotOf, Nat.mod_eq_of_lt h]

theorem createPhilosopher_second (s : SharedResources)
    (hc : s.philosopherCreationProcess ≠ 0)
    (h1 : s.numberPhilosophers = 1) :
    createPhilosopher s = some (newPhilosopherLater 1, createStateSecond s) := by
  unfold createPhilosopher createChopstick definePhilosopherRightChopstick
    createStateSecond newPhilosopherLater slotOf
  rw [if_neg hc]
  simp [h1]
  omega

theorem createPhilosopher_later_inv (s : SharedResources)
    (res : ServerPhilosopher × SharedResources)
    (h2 : 2 ≤ s.numberPhilosophers)
    (h : createPhilosopher s = some res) :
    s.philosopherCreationProcess ≠ 0 ∧
    s.numberPhilosophers < 7 ∧
    ∃ c : Fin 7,
      (s.philosophers (slotOf (s.numberPhilosophers - 1))).rightChopstick = some c ∧
      (Function.update s.chopsticks (slotOf s.numberPhilosophers)
          { id := (s.numberPhilosophers : Int) + 1, usage := 1 } c).usage ≠ 0 ∧
      res = (newPhilosopherLater s.numberPhilosophers, createStateLater s c) := by
  unfold createPhilosopher createChopstick at h
  split at h
  · exact absurd h (by simp)
  case _ hc =>
    simp only [] at h
    split at h
    case _ hN =>
      split at h
      · exact absurd h (by simp)
      case _ philosopher3 s3 hnext =>
        rw [if_pos (by omega : s.numberPhilosophers > 0)] at hnext
        rw [if_pos (by constructor <;> omega :
          1 ≤ (s.numberPhilosophers : Int) + 1 ∧ (s.numberPhilosophers : Int) + 1 ≤ 7)] at hnext
        unfold definePhilosopherRightChopstick at hnext
        simp only [] at hnext
        split at hnext
        case _ hprev =>
          split at hnext
          case _ heq2 =>
            exact absurd heq2 (by simp; omega)
          case _ hne2 =>
            split at hnext
            case _ hgt2 =>
              split at hnext
              · exact absurd hnext (by simp)
              case _ c hcright =>
                split at hnext
                case _ hu0 => exact absurd hnext (by simp)
                case _ hu0 =>
                  simp only [Option.some.injEq, Prod.mk.injEq] at hnext
                  obtain ⟨hp3, hs3⟩ := hnext
                  subst hp3
                  subst hs3
                  simp only [Option.some.injEq] at h
                  have htn : ((s.numberPhilosophers : Int) + 1 - 1).toNat
                      = s.numberPhilosophers := by omega
                  have hsN : slotOf s.numberPhilosophers = ⟨s.numberPhilosophers, hN⟩ :=
                    slotOf_eq _ hN
                  have hsP : slotOf (s.numberPhilosophers - 1)
                      = ⟨s.numberPhilosophers - 1, by omega⟩ := slotOf_eq _ (by omega)
                  refine ⟨hc, hN, c, ?_, ?_, ?_⟩
                  · rw [hsP]
                    simpa using hcright
                  · rw [htn] at hu0
                    simpa using hu0
                  · rw [← h, htn]
                    simp only [createStateLater, newPhilosopherLater, hsN, hsP]
                    by_cases hpar : ((s.numberPhilosophers + 1) % 2 == 0) = true
                    · simp only [hpar, if_true]
                      simp
                      omega
                    · simp only [Bool.not_eq_true] at hpar
                      simp only [hpar]
                      simp
                      omega
            case _ hle2 =>
              exact absurd (show (s.numberPhilosophers : Int) + 1 > 2 by omega) hle2
        case _ hprev =>
          exact absurd hprev (by omega)
    case _ hN =>
      exact absurd h (by simp)

/-! ### Counting helpers -/

theorem philSum_update (f : Fin 7 → ServerPhilosopher) (m : Fin 7)
    (v : ServerPhilosopher) (P : ServerPhilosopher → Prop) [DecidablePred P] :
    (∑ i : Fin 7, if P (Function.update f m v i) then 1 else 0)
        + (if P (f m) then 1 else 0)
      = (∑ i : Fin 7, if P (f i) then 1 else 0) + (if P v then 1 else 0) := by
  have hfun : (fun i : Fin 7 => if P (Function.update f m v i) then (1 : Nat) else 0)
      = Function.update (fun i : Fin 7 => if P (f i) then 1 else 0) m
          (if P v then 1 else 0) := by
    funext i
    by_cases hi : i = m
    · subst hi
      simp [Function.update_same]
    · simp [Function.update_noteq hi]
  rw [hfun, Finset.sum_update_of_mem (Finset.mem_univ m),
    ← Finset.add_sum_erase _ _ (Finset.mem_univ m), Finset.erase_eq]
  omega

theorem countEating_update (s s1 : SharedResources) (m : Fin 7)
    (v : ServerPhilosopher)
    (h : s1.philosophers = Function.update s.philosophers m v) :
    countEating s1 + (if (s.philosophers m).base.state = .EATING then 1 else 0)
      = countEating s + (if v.base.state = .EATING then 1 else 0) := by
  unfold countEating
  rw [h]
  exact philSum_update s.philosophers m v (fun ph => ph.base.state = .EATING)

theorem holders_update (s s1 : SharedResources) (m : Fin 7)
    (v : ServerPhilosopher) (c : Fin 7)
    (h : s1.philosophers = Function.update s.philosophers m v) :
    holders s1 c + (if (s.philosophers m).base.state = .EATING ∧
        ((s.philosophers m).leftChopstick = some c ∨
         (s.philosophers m).rightChopstick = some c) then 1 else 0)
      = holders s c + (if v.base.state = .EATING ∧
          (v.leftChopstick = some c ∨ v.rightChopstick = some c) then 1 else 0) := by
  unfold holders
  rw [h]
  exact philSum_update s.philosophers m v
    (fun ph => ph.base.state = .EATING ∧
      (ph.leftChopstick = some c ∨ ph.rightChopstick = some c))

theorem countEating_congr (s s1 : SharedResources)
    (h : s1.philosophers = s.philosophers) : countEating s1 = countEating s := by
  unfold countEating
  rw [h]

theorem holders_congr (s s1 : SharedResources) (c : Fin 7)
    (h : s1.philosophers = s.philosophers) : holders s1 c = holders s c := by
  unfold holders
  rw [h]

theorem countEating_eq_zero (s : SharedResources) :
    countEating s = 0 ↔ ∀ i : Fin 7, (s.philosophers i).base.state ≠ .EATING := by
  unfold countEating
  rw [Finset.sum_eq_zero_iff]
  simp

theorem holders_eq_zero (s : SharedResources) (c : Fin 7) :
    holders s c = 0 ↔ ∀ i : Fin 7, ¬((s.philosophers i).base.state = .EATING ∧
      ((s.philosophers i).leftChopstick = some c ∨
       (s.philosophers i).rightChopstick = some c)) := by
  unfold holders
  rw [Finset.sum_eq_zero_iff]
  simp

theorem holders_pos (s : SharedResources) (c : Fin 7) (i : Fin 7)
    (he : (s.philosophers i).base.state = .EATING)
    (hadj : (s.philosophers i).leftChopstick = some c ∨
      (s.philosophers i).rightChopstick = some c) :
    1 ≤ holders s c := by
  unfold holders
  have := Finset.single_le_sum
    (f := fun j : Fin 7 => if (s.philosophers j).base.state = .EATING ∧
      ((s.philosophers j).leftChopstick = some c ∨
       (s.philosophers j).rightChopstick = some c) then (1 : Nat) else 0)
    (fun j _ => Nat.zero_le _) (Finset.mem_univ i)
  simp only [] at this
  rw [if_pos ⟨he, hadj⟩] at this
  exact this

/-! ### Preservation of the structural invariant -/

theorem InvS_of_pointers (s s1 : SharedResources)
    (hn : s1.numberPhilosophers = s.numberPhilosophers)
    (hc : s1.philosopherCreationProcess = s.philosopherCreationProcess)
    (hL : ∀ i : Fin 7, (s1.philosophers i).leftChopstick = (s.philosophers i).leftChopstick)
    (hR : ∀ i : Fin 7, (s1.philosophers i).rightChopstick = (s.philosophers i).rightChopstick)
    (h : InvS s) : InvS s1 := by
  obtain ⟨h1, h2, h3, h4, h5, h6⟩ := h
  refine ⟨by omega, by rw [hc, h2], ?_, ?_, ?_, ?_⟩
  · intro i hi
    rw [hn] at hi
    rw [hL i, hR i]
    exact h3 i hi
  · intro i hi
    rw [hn] at hi
    rw [hL i, hn]
    exact h4 i hi
  · intro i r hri
    rw [hR i] at hri
    rw [hL i, hn]
    exact h5 i r hri
  · intro h2n i hi
    rw [hn] at h2n hi
    rw [hR i]
    exact h6 h2n i hi

theorem InvS_notFoundState (s : SharedResources) (h : InvS s) :
    InvS (notFoundState s) := by
  refine InvS_of_pointers s _ rfl rfl (fun i => rfl) (fun i => rfl) h

theorem InvS_overwriteState (p : Philosopher) (s : SharedResources) (m : Fin 7)
    (h : InvS s) : InvS (overwriteState p s m) := by
  refine InvS_of_pointers s _ rfl rfl ?_ ?_ h <;>
    (intro i
     by_cases hi : i = m <;>
       simp [overwriteState, hi, Function.update_noteq])

theorem InvS_releaseState (p : Philosopher) (s : SharedResources) (m l r : Fin 7)
    (h : InvS s) : InvS (releaseState p s m l r) := by
  refine InvS_of_pointers s _ rfl rfl ?_ ?_ h <;>
    (intro i
     by_cases hi : i = m <;>
       simp [releaseState, hi, Function.update_noteq])

theorem InvS_hungryState (p : Philosopher) (s : SharedResources) (m l r : Fin 7)
    (h : InvS s) : InvS (hungryState p s m l r) := by
  refine InvS_of_pointers s _ rfl rfl ?_ ?_ h <;>
    (intro i
     by_cases hi : i = m <;>
       simp [hungryState, hi, Function.update_noteq])

theorem InvS_attach : InvS attachSharedResources := by
  refine ⟨by decide, by decide, ?_, ?_, ?_, ?_⟩ <;> decide

theorem InvS_createStateFirst (s : SharedResources) (h : InvS s)
    (h0 : s.numberPhilosophers = 0) : InvS (createStateFirst s) := by
  obtain ⟨h1, h2, h3, h4, h5, h6⟩ := h
  have v0 : (slotOf 0 : Fin 7).val = 0 := rfl
  have hz : ∀ i : Fin 7, (s.philosophers i).leftChopstick = none ∧
      (s.philosophers i).rightChopstick = none := fun i => h3 i (by omega)
  refine ⟨by simp [createStateFirst]; omega, by simpa [createStateFirst] using h2,
    ?_, ?_, ?_, ?_⟩
  · intro i hi
    simp only [createStateFirst] at hi ⊢
    have hine : i ≠ slotOf 0 := by
      intro hcontra
      subst hcontra
      omega
    rw [Function.update_noteq hine]
    exact hz i
  · intro i hi
    simp only [createStateFirst] at hi ⊢
    have hieq : i = slotOf 0 := Fin.ext (by omega)
    subst hieq
    rw [Function.update_same]
    exact ⟨slotOf 0, rfl, by omega⟩
  · intro i r hri
    simp only [createStateFirst] at hri ⊢
    by_cases hieq : i = slotOf 0
    · subst hieq
      rw [Function.update_same] at hri
      exact absurd hri (by simp [newPhilosopherFirst])
    · rw [Function.update_noteq hieq] at hri
      exact absurd hri (by simp [(hz i).2])
  · intro h2n
    simp only [createStateFirst] at h2n
    omega

theorem InvS_createStateSecond (s : SharedResources) (h : InvS s)
    (h1 : s.numberPhilosophers = 1) : InvS (createStateSecond s) := by
  obtain ⟨hc1, hc2, hc3, hc4, hc5, hc6⟩ := h
  have v0 : (slotOf 0 : Fin 7).val = 0 := rfl
  have v1 : (slotOf 1 : Fin 7).val = 1 := rfl
  refine ⟨by simp [createStateSecond]; omega, by simpa [createStateSecond] using hc2,
    ?_, ?_, ?_, ?_⟩
  · intro i hi
    simp only [createStateSecond] at hi ⊢
    have hi1 : i ≠ slotOf 1 := by
      intro hcontra
      subst hcontra
      omega
    have hi0 : i ≠ slotOf 0 := by
      intro hcontra
      subst hcontra
      omega
    rw [Function.update_noteq hi1, Function.update_noteq hi0]
    exact hc3 i (by omega)
  · intro i hi
    simp only [createStateSecond] at hi ⊢
    by_cases hieq : i = slotOf 1
    · subst hieq
      rw [Function.update_same]
      exact ⟨slotOf 1, rfl, by omega⟩
    · rw [Function.update_noteq hieq]
      have hieq0 : i = slotOf 0 := by
        refine Fin.ext ?_
        have hne1 : i.val ≠ 1 := fun hv => hieq (Fin.ext (by omega))
        omega
      subst hieq0
      rw [Function.update_same]
      obtain ⟨l, hl, hlb⟩ := hc4 (slotOf 0) (by omega)
      exact ⟨l, by simpa using hl, by omega⟩
  · intro i r hri
    simp only [createStateSecond] at hri ⊢
    by_cases hieq : i = slotOf 1
    · subst hieq
      rw [Function.update_same] at hri ⊢
      simp only [newPhilosopherLater, Option.some.injEq] at hri ⊢
      have hrv : r.val = 0 := by rw [← hri]
      refine ⟨by omega, ?_⟩
      intro hcontra
      simp only [Option.some.injEq] at hcontra
      have : (slotOf 1 : Fin 7).val = r.val := by rw [hcontra]
      omega
    · rw [Function.update_noteq hieq] at hri ⊢
      by_cases hieq0 : i = slotOf 0
      · subst hieq0
        rw [Function.update_same] at hri ⊢
        have hri2 : some (slotOf 1) = some r := hri
        have hrv : r.val = 1 := by rw [← Option.some.inj hri2]; exact v1
        refine ⟨by omega, ?_⟩
        show (s.philosophers (slotOf 0)).leftChopstick ≠ some r
        obtain ⟨l, hl, hlb⟩ := hc4 (slotOf 0) (by omega)
        rw [hl]
        intro hcontra
        have : l.val = r.val := by rw [Option.some.inj hcontra]
        omega
      · have hv1 : i.val ≠ 1 := fun hv => hieq (Fin.ext (by omega))
        have hv0 : i.val ≠ 0 := fun hv => hieq0 (Fin.ext (by omega))
        rw [Function.update_noteq hieq0] at hri
        have hzero : (s.philosophers i).rightChopstick = none := (hc3 i (by omega)).2
        rw [hzero] at hri
        exact absurd hri (by simp)
  · intro h2n i hi
    simp only [createStateSecond] at hi ⊢
    by_cases hieq : i = slotOf 1
    · subst hieq
      rw [Function.update_same]
      simp [newPhilosopherLater]
    · rw [Function.update_noteq hieq]
      have hieq0 : i = slotOf 0 := by
        refine Fin.ext ?_
        have hne1 : i.val ≠ 1 := fun hv => hieq (Fin.ext (by omega))
        omega
      subst hieq0
      rw [Function.update_same]
      simp

theorem InvS_createStateLater (s : SharedResources) (c : Fin 7) (h : InvS s)
    (h2 : 2 ≤ s.numberPhilosophers) (hN : s.numberPhilosophers < 7) :
    InvS (createStateLater s c) := by
  obtain ⟨hc1, hc2, hc3, hc4, hc5, hc6⟩ := h
  have vN : (slotOf s.numberPhilosophers).val = s.numberPhilosophers := by
    rw [slotOf_eq _ hN]
  have vP : (slotOf (s.numberPhilosophers - 1)).val = s.numberPhilosophers - 1 := by
    rw [slotOf_eq _ (by omega)]
  refine ⟨by simp [createStateLater]; omega, by simpa [createStateLater] using hc2,
    ?_, ?_, ?_, ?_⟩
  · intro i hi
    simp only [createStateLater] at hi ⊢
    have hiN : i ≠ slotOf s.numberPhilosophers := by
      intro hcontra
      subst hcontra
      omega
    have hiP : i ≠ slotOf (s.numberPhilosophers - 1) := by
      intro hcontra
      subst hcontra
      omega
    rw [Function.update_noteq hiN, Function.update_noteq hiP]
    exact hc3 i (by omega)
  · intro i hi
    simp only [createStateLater] at hi ⊢
    by_cases hiN : i = slotOf s.numberPhilosophers
    · subst hiN
      rw [Function.update_same]
      exact ⟨slotOf s.numberPhilosophers, rfl, by omega⟩
    · rw [Function.update_noteq hiN]
      have hivN : i.val ≠ s.numberPhilosophers := fun hv => hiN (Fin.ext (by omega))
      by_cases hiP : i = slotOf (s.numberPhilosophers - 1)
      · subst hiP
        rw [Function.update_same]
        obtain ⟨l, hl, hlb⟩ := hc4 (slotOf (s.numberPhilosophers - 1)) (by omega)
        exact ⟨l, hl, by omega⟩
      · rw [Function.update_noteq hiP]
        obtain ⟨l, hl, hlb⟩ := hc4 i (by omega)
        exact ⟨l, hl, by omega⟩
  · intro i r hri
    simp only [createStateLater] at hri ⊢
    by_cases hiN : i = slotOf s.numberPhilosophers
    · subst hiN
      rw [Function.update_same] at hri ⊢
      simp only [newPhilosopherLater] at hri ⊢
      have hri2 : r.val = 0 := by rw [← Option.some.inj hri]
      refine ⟨by omega, ?_⟩
      intro hcontra
      have : (slotOf s.numberPhilosophers).val = r.val := by
        rw [Option.some.inj hcontra]
      omega
    · rw [Function.update_noteq hiN] at hri ⊢
      have hivN : i.val ≠ s.numberPhilosophers := fun hv => hiN (Fin.ext (by omega))
      by_cases hiP : i = slotOf (s.numberPhilosophers - 1)
      · subst hiP
        rw [Function.update_same] at hri ⊢
        have hri2 : some (slotOf s.numberPhilosophers) = some r := hri
        have hrv : r.val = s.numberPhilosophers := by
          rw [← Option.some.inj hri2]
          exact vN
        refine ⟨by omega, ?_⟩
        show (s.philosophers (slotOf (s.numberPhilosophers - 1))).leftChopstick ≠ some r
        obtain ⟨l, hl, hlb⟩ := hc4 (slotOf (s.numberPhilosophers - 1)) (by omega)
        rw [hl]
        intro hcontra
        have : l.val = r.val := by rw [Option.some.inj hcontra]
        omega
      · rw [Function.update_noteq hiP] at hri ⊢
        obtain ⟨hb, hd⟩ := hc5 i r hri
        exact ⟨by omega, hd⟩
  · intro h2n i hi
    simp only [createStateLater] at hi ⊢
    by_cases hiN : i = slotOf s.numberPhilosophers
    · subst hiN
      rw [Function.update_same]
      simp [newPhilosopherLater]
    · rw [Function.update_noteq hiN]
      have hivN : i.val ≠ s.numberPhilosophers := fun hv => hiN (Fin.ext (by omega))
      by_cases hiP : i = slotOf (s.numberPhilosophers - 1)
      · subst hiP
        rw [Function.update_same]
        simp
      · rw [Function.update_noteq hiP]
        exact hc6 h2 i (by omega)

theorem InvS_step (s s1 : SharedResources) (op : Op) (h : InvS s)
    (hstep : step s op = some s1) : InvS s1 := by
  have hcne : s.philosopherCreationProcess ≠ 0 := by
    rw [h.2.1]
    omega
  cases op with
  | create =>
    simp only [step] at hstep
    cases hcr : createPhilosopher s with
    | none =>
      rw [hcr] at hstep
      exact absurd hstep (by simp)
    | some res =>
      rw [hcr] at hstep
      simp only [Option.map_some', Option.some.injEq] at hstep
      subst hstep
      rcases Nat.lt_or_ge s.numberPhilosophers 2 with hlt | hge
      · by_cases h0 : s.numberPhilosophers = 0
        · rw [createPhilosopher_first s hcne h0] at hcr
          simp only [Option.some.injEq] at hcr
          rw [← hcr]
          exact InvS_createStateFirst s ⟨h.1, h.2.1, h.2.2.1, h.2.2.2.1,
            h.2.2.2.2.1, h.2.2.2.2.2⟩ h0
        · have h1 : s.numberPhilosophers = 1 := by omega
          rw [createPhilosopher_second s hcne h1] at hcr
          simp only [Option.some.injEq] at hcr
          rw [← hcr]
          exact InvS_createStateSecond s ⟨h.1, h.2.1, h.2.2.1, h.2.2.2.1,
            h.2.2.2.2.1, h.2.2.2.2.2⟩ h1
      · obtain ⟨-, hN, c, -, -, hres⟩ := createPhilosopher_later_inv s res hge hcr
        rw [hres]
        exact InvS_createStateLater s c ⟨h.1, h.2.1, h.2.2.1, h.2.2.2.1,
          h.2.2.2.2.1, h.2.2.2.2.2⟩ hge hN
  | update p =>
    simp only [step] at hstep
    cases hu : updatePhilosopher p s with
    | none =>
      rw [hu] at hstep
      exact absurd hstep (by simp)
    | some res =>
      rw [hu] at hstep
      simp only [Option.map_some', Option.some.injEq] at hstep
      subst hstep
      cases hfind : getPhilosopherFromId p.id s.philosophers with
      | none =>
        rw [updatePhilosopher_notFound p s hfind] at hu
        simp only [Option.some.injEq] at hu
        rw [← hu]
        exact InvS_notFoundState s h
      | some m =>
        cases hp : p.state with
        | THINKING =>
          by_cases hst : (s.philosophers m).base.state = .EATING
          · obtain ⟨l, r, -, -, hres⟩ := update_release_inv p s res m hp hfind hst hu
            rw [hres]
            exact InvS_releaseState p s m l r h
          · rw [updatePhilosopher_thinkingPlain p s m hfind hp hst] at hu
            simp only [Option.some.injEq] at hu
            rw [← hu]
            exact InvS_overwriteState p s m h
        | EATING =>
          rw [updatePhilosopher_ackEating p s m hfind hp] at hu
          simp only [Option.some.injEq] at hu
          rw [← hu]
          exact InvS_overwriteState p s m h
        | HUNGRY =>
          obtain ⟨l, r, -, -, -, -, -, hres⟩ := update_hungry_inv p s res m hp hfind hu
          rw [hres]
          exact InvS_hungryState p s m l r h

theorem InvS_run (ops : List Op) (s s1 : SharedResources) (h : InvS s)
    (hrun : run s ops = some s1) : InvS s1 := by
  induction ops generalizing s with
  | nil =>
    unfold run at hrun
    simp only [Option.some.injEq] at hrun
    rw [← hrun]
    exact h
  | cons op ops ih =>
    unfold run at hrun
    cases hst : step s op with
    | none =>
      rw [hst] at hrun
      exact absurd hrun (by simp)
    | some smid =>
      rw [hst] at hrun
      simp only [Option.some_bind] at hrun
      exact ih smid (InvS_step s smid op h hst) hrun

/-! ### Preservation of the gate-accounting invariant -/

theorem InvG_notFoundState (s : SharedResources) (h : InvG s) :
    InvG (notFoundState s) := h

theorem InvG_overwriteState (p : Philosopher) (s : SharedResources) (m : Fin 7)
    (hiff : p.state = .EATING ↔ (s.philosophers m).base.state = .EATING)
    (hg : InvG s) : InvG (overwriteState p s m) := by
  obtain ⟨g1, g2, g3, g4⟩ := hg
  have hphil : (overwriteState p s m).philosophers
      = Function.update s.philosophers m { s.philosophers m with base := p } := rfl
  have hv : ({ s.philosophers m with base := p } : ServerPhilosopher).base.state
      = p.state := rfl
  have hE : countEating (overwriteState p s m) = countEating s := by
    have hb := countEating_update s (overwriteState p s m) m _ hphil
    rw [hv] at hb
    by_cases hpe : p.state = .EATING
    · rw [if_pos hpe, if_pos (hiff.mp hpe)] at hb
      omega
    · rw [if_neg hpe, if_neg (fun hcontra => hpe (hiff.mpr hcontra))] at hb
      omega
  refine ⟨?_, ?_, ?_, ?_⟩
  · show s.maxAllowedEating + countEating (overwriteState p s m)
      = s.numberPhilosophers / 2
    rw [hE]
    exact g1
  · intro i hi
    show (Function.update s.philosophers m
      { s.philosophers m with base := p } i).base.state ≠ .EATING
    by_cases him : i = m
    · subst him
      rw [Function.update_same, hv]
      exact fun hcontra => g2 i hi (hiff.mp hcontra)
    · rw [Function.update_noteq him]
      exact g2 i hi
  · intro c hc
    have hH : holders (overwriteState p s m) c = holders s c := by
      have hb := holders_update s (overwriteState p s m) m _ c hphil
      have hcond : (({ s.philosophers m with base := p } : ServerPhilosopher).base.state
            = .EATING ∧
          (({ s.philosophers m with base := p } : ServerPhilosopher).leftChopstick = some c ∨
           ({ s.philosophers m with base := p } : ServerPhilosopher).rightChopstick = some c))
          ↔ ((s.philosophers m).base.state = .EATING ∧
          ((s.philosophers m).leftChopstick = some c ∨
           (s.philosophers m).rightChopstick = some c)) := by
        rw [hv]
        exact and_congr hiff Iff.rfl
      rw [if_congr hcond rfl rfl] at hb
      omega
    show (s.chopsticks c).usage + holders (overwriteState p s m) c = 1
    rw [hH]
    exact g3 c hc
  · intro c hc
    exact g4 c hc

theorem InvG_releaseState (p : Philosopher) (s : SharedResources) (m l r : Fin 7)
    (hS : InvS s) (hG : InvG s)
    (hp : p.state = .THINKING)
    (hst : (s.philosophers m).base.state = .EATING)
    (hl : (s.philosophers m).leftChopstick = some l)
    (hr : (s.philosophers m).rightChopstick = some r) :
    InvG (releaseState p s m l r) := by
  obtain ⟨s1, s2, s3, s4, s5, s6⟩ := hS
  obtain ⟨g1, g2, g3, g4⟩ := hG
  have hmN : m.val < s.numberPhilosophers := by
    by_contra hge
    exact g2 m (by omega) hst
  have hlN : l.val < s.numberPhilosophers := by
    obtain ⟨l2, hl2, hl2b⟩ := s4 m hmN
    have : l2 = l := Option.some.inj (hl2.symm.trans hl)
    omega
  have hrfacts := s5 m r hr
  have hrN : r.val < s.numberPhilosophers := hrfacts.1
  have hlr : l ≠ r := by
    intro hcontra
    apply hrfacts.2
    rw [← hcontra]
    exact hl
  have hholl : 1 ≤ holders s l := holders_pos s l m hst (Or.inl hl)
  have hholr : 1 ≤ holders s r := holders_pos s r m hst (Or.inr hr)
  have hul := g3 l hlN
  have hur := g3 r hrN
  have hphil : (releaseState p s m l r).philosophers
      = Function.update s.philosophers m { s.philosophers m with base := p } := rfl
  have hvstate : ({ s.philosophers m with base := p } : ServerPhilosopher).base.state
      = p.state := rfl
  have hcsl : ((releaseState p s m l r).chopsticks l).usage
      = (s.chopsticks l).usage + 1 := by
    show ((Function.update (Function.update s.chopsticks l
      { s.chopsticks l with usage := (s.chopsticks l).usage + 1 }) r _) l).usage = _
    rw [Function.update_noteq hlr, Function.update_same]
  have hcsr : ((releaseState p s m l r).chopsticks r).usage
      = (s.chopsticks r).usage + 1 := by
    show ((Function.update (Function.update s.chopsticks l
      { s.chopsticks l with usage := (s.chopsticks l).usage + 1 }) r _) r).usage = _
    rw [Function.update_same]
    show (Function.update s.chopsticks l
      { s.chopsticks l with usage := (s.chopsticks l).usage + 1 } r).usage + 1 = _
    rw [Function.update_noteq (Ne.symm hlr)]
  have hcso : ∀ c2 : Fin 7, c2 ≠ l → c2 ≠ r →
      ((releaseState p s m l r).chopsticks c2).usage = (s.chopsticks c2).usage := by
    intro c2 h2l h2r
    show ((Function.update (Function.update s.chopsticks l
      { s.chopsticks l with usage := (s.chopsticks l).usage + 1 }) r _) c2).usage = _
    rw [Function.update_noteq h2r, Function.update_noteq h2l]
  have hnotE : ¬(({ s.philosophers m with base := p } : ServerPhilosopher).base.state
      = PhilosopherState.EATING) := by
    intro hcontra
    have h1 : p.state = PhilosopherState.EATING := hcontra
    rw [hp] at h1
    exact absurd h1 (by decide)
  have hbE := countEating_update s (releaseState p s m l r) m _ hphil
  rw [if_neg hnotE, if_pos hst] at hbE
  have hnum : (releaseState p s m l r).numberPhilosophers = s.numberPhilosophers := rfl
  refine ⟨?_, ?_, ?_, ?_⟩
  · show s.maxAllowedEating + 1 + countEating (releaseState p s m l r)
      = s.numberPhilosophers / 2
    omega
  · intro i hi
    show (Function.update s.philosophers m
      { s.philosophers m with base := p } i).base.state ≠ .EATING
    have him : i ≠ m := by
      intro hcontra
      subst hcontra
      omega
    rw [Function.update_noteq him]
    exact g2 i hi
  · intro c2 hc2
    have hnotH : ¬(({ s.philosophers m with base := p } : ServerPhilosopher).base.state
        = PhilosopherState.EATING ∧
        (({ s.philosophers m with base := p } : ServerPhilosopher).leftChopstick = some c2 ∨
         ({ s.philosophers m with base := p } : ServerPhilosopher).rightChopstick = some c2)) := by
      intro hcontra
      have h1 : p.state = PhilosopherState.EATING := hcontra.1
      rw [hp] at h1
      exact absurd h1 (by decide)
    have hbH := holders_update s (releaseState p s m l r) m _ c2 hphil
    rw [if_neg hnotH] at hbH
    show ((releaseState p s m l r).chopsticks c2).usage
      + holders (releaseState p s m l r) c2 = 1
    by_cases h2l : c2 = l
    · subst h2l
      rw [if_pos ⟨hst, Or.inl hl⟩] at hbH
      rw [hcsl]
      omega
    · by_cases h2r : c2 = r
      · subst h2r
        rw [if_pos ⟨hst, Or.inr hr⟩] at hbH
        rw [hcsr]
        omega
      · rw [if_neg (by
          intro hcontra
          rcases hcontra.2 with hadj | hadj
          · exact h2l (Option.some.inj (hl.symm.trans hadj)).symm
          · exact h2r (Option.some.inj (hr.symm.trans hadj)).symm)] at hbH
        rw [hcso c2 h2l h2r]
        have := g3 c2 hc2
        omega
  · intro c2 hc2
    have h2l : c2 ≠ l := by
      intro hcontra
      subst hcontra
      omega
    have h2r : c2 ≠ r := by
      intro hcontra
      subst hcontra
      omega
    rw [hcso c2 h2l h2r]
    exact g4 c2 hc2

theorem InvG_hungryState (p : Philosopher) (s : SharedResources) (m l r : Fin 7)
    (hS : InvS s) (hG : InvG s)
    (hl : (s.philosophers m).leftChopstick = some l)
    (hr : (s.philosophers m).rightChopstick = some r)
    (hg : s.maxAllowedEating ≠ 0)
    (hul : (s.chopsticks l).usage ≠ 0)
    (hur0 : (Function.update s.chopsticks l
      { s.chopsticks l with usage := (s.chopsticks l).usage - 1 } r).usage ≠ 0) :
    InvG (hungryState p s m l r) := by
  obtain ⟨s1, s2, s3, s4, s5, s6⟩ := hS
  obtain ⟨g1, g2, g3, g4⟩ := hG
  have hmN : m.val < s.numberPhilosophers := by
    by_contra hge
    have := (s3 m (by omega)).1
    rw [hl] at this
    exact absurd this (by simp)
  have hlN : l.val < s.numberPhilosophers := by
    obtain ⟨l2, hl2, hl2b⟩ := s4 m hmN
    have : l2 = l := Option.some.inj (hl2.symm.trans hl)
    omega
  have hrfacts := s5 m r hr
  have hrN : r.val < s.numberPhilosophers := hrfacts.1
  have hlr : l ≠ r := by
    intro hcontra
    apply hrfacts.2
    rw [← hcontra]
    exact hl
  have hur : (s.chopsticks r).usage ≠ 0 := by
    rw [Function.update_noteq (Ne.symm hlr)] at hur0
    exact hur0
  have hstne : (s.philosophers m).base.state ≠ .EATING := by
    intro hcontra
    have hpos := holders_pos s l m hcontra (Or.inl hl)
    have := g3 l hlN
    omega
  have husl : (s.chopsticks l).usage = 1 ∧ holders s l = 0 := by
    have := g3 l hlN
    omega
  have husr : (s.chopsticks r).usage = 1 ∧ holders s r = 0 := by
    have := g3 r hrN
    omega
  have hphil : (hungryState p s m l r).philosophers
      = Function.update s.philosophers m { s.philosophers m with
          base := { id := p.id, state := .EATING, stateTimer := 0 } } := rfl
  have hvE : ({ s.philosophers m with
      base := { id := p.id, state := .EATING, stateTimer := 0 } } :
        ServerPhilosopher).base.state = PhilosopherState.EATING := rfl
  have hcsl : ((hungryState p s m l r).chopsticks l).usage
      = (s.chopsticks l).usage - 1 := by
    show ((Function.update (Function.update s.chopsticks l
      { s.chopsticks l with usage := (s.chopsticks l).usage - 1 }) r _) l).usage = _
    rw [Function.update_noteq hlr, Function.update_same]
  have hcsr : ((hungryState p s m l r).chopsticks r).usage
      = (s.chopsticks r).usage - 1 := by
    show ((Function.update (Function.update s.chopsticks l
      { s.chopsticks l with usage := (s.chopsticks l).usage - 1 }) r _) r).usage = _
    rw [Function.update_same]
    show (Function.update s.chopsticks l
      { s.chopsticks l with usage := (s.chopsticks l).usage - 1 } r).usage - 1 = _
    rw [Function.update_noteq (Ne.symm hlr)]
  have hcso : ∀ c2 : Fin 7, c2 ≠ l → c2 ≠ r →
      ((hungryState p s m l r).chopsticks c2).usage = (s.chopsticks c2).usage := by
    intro c2 h2l h2r
    show ((Function.update (Function.update s.chopsticks l
      { s.chopsticks l with usage := (s.chopsticks l).usage - 1 }) r _) c2).usage = _
    rw [Function.update_noteq h2r, Function.update_noteq h2l]
  have hbE := countEating_update s (hungryState p s m l r) m _ hphil
  rw [if_neg hstne, if_pos hvE] at hbE
  have hnum : (hungryState p s m l r).numberPhilosophers = s.numberPhilosophers := rfl
  refine ⟨?_, ?_, ?_, ?_⟩
  · show s.maxAllowedEating - 1 + countEating (hungryState p s m l r)
      = s.numberPhilosophers / 2
    omega
  · intro i hi
    show (Function.update s.philosophers m { s.philosophers m with
      base := { id := p.id, state := .EATING, stateTimer := 0 } } i).base.state ≠ .EATING
    have him : i ≠ m := by
      intro hcontra
      subst hcontra
      omega
    rw [Function.update_noteq him]
    exact g2 i hi
  · intro c2 hc2
    have hnotOld : ¬((s.philosophers m).base.state = PhilosopherState.EATING ∧
        ((s.philosophers m).leftChopstick = some c2 ∨
         (s.philosophers m).rightChopstick = some c2)) :=
      fun hcontra => hstne hcontra.1
    have hbH := holders_update s (hungryState p s m l r) m _ c2 hphil
    rw [if_neg hnotOld] at hbH
    show ((hungryState p s m l r).chopsticks c2).usage
      + holders (hungryState p s m l r) c2 = 1
    by_cases h2l : c2 = l
    · subst h2l
      rw [if_pos ⟨hvE, Or.inl hl⟩] at hbH
      rw [hcsl]
      omega
    · by_cases h2r : c2 = r
      · subst h2r
        rw [if_pos ⟨hvE, Or.inr hr⟩] at hbH
        rw [hcsr]
        omega
      · rw [if_neg (fun hcontra => by
          rcases hcontra.2 with hadj | hadj
          · exact h2l (Option.some.inj
              ((show (s.philosophers m).leftChopstick = some c2 from hadj).symm.trans hl))
          · exact h2r (Option.some.inj
              ((show (s.philosophers m).rightChopstick = some c2 from hadj).symm.trans hr)))] at hbH
        rw [hcso c2 h2l h2r]
        have := g3 c2 hc2
        omega
  · intro c2 hc2
    have h2l : c2 ≠ l := by
      intro hcontra
      subst hcontra
      omega
    have h2r : c2 ≠ r := by
      intro hcontra
      subst hcontra
      omega
    rw [hcso c2 h2l h2r]
    exact g4 c2 hc2

theorem InvG_createStateFirst (s : SharedResources)
    (hG : InvG s) (h0 : s.numberPhilosophers = 0) :
    InvG (createStateFirst s) := by
  obtain ⟨g1, g2, g3, g4⟩ := hG
  have v0 : (slotOf 0 : Fin 7).val = 0 := rfl
  have hgz : s.maxAllowedEating = 0 ∧ countEating s = 0 := by
    rw [h0] at g1
    omega
  have hallNE : ∀ i : Fin 7, (s.philosophers i).base.state ≠ .EATING :=
    (countEating_eq_zero s).mp hgz.2
  have hphil : (createStateFirst s).philosophers
      = Function.update s.philosophers (slotOf 0) newPhilosopherFirst := rfl
  have hallNE2 : ∀ i : Fin 7,
      ((createStateFirst s).philosophers i).base.state ≠ .EATING := by
    intro i
    rw [hphil]
    by_cases hi : i = slotOf 0
    · subst hi
      rw [Function.update_same]
      simp [newPhilosopherFirst]
    · rw [Function.update_noteq hi]
      exact hallNE i
  have hE2 : countEating (createStateFirst s) = 0 := by
    rw [countEating_eq_zero]
    exact hallNE2
  have hH2 : ∀ c : Fin 7, holders (createStateFirst s) c = 0 := by
    intro c
    rw [holders_eq_zero]
    exact fun i hcontra => hallNE2 i hcontra.1
  refine ⟨?_, fun i _ => hallNE2 i, ?_, ?_⟩
  · show s.maxAllowedEating + countEating (createStateFirst s)
      = (s.numberPhilosophers + 1) / 2
    omega
  · intro c hc
    have hcnum : c.val < s.numberPhilosophers + 1 := hc
    have hceq : c = slotOf 0 := Fin.ext (by omega)
    subst hceq
    show ((Function.update s.chopsticks (slotOf 0)
      { id := 1, usage := 1 } (slotOf 0)).usage) + holders (createStateFirst s) (slotOf 0) = 1
    rw [Function.update_same, hH2]
  · intro c hc
    have hcnum : s.numberPhilosophers + 1 ≤ c.val := hc
    have hcne : c ≠ slotOf 0 := by
      intro hcontra
      subst hcontra
      omega
    show (Function.update s.chopsticks (slotOf 0) { id := 1, usage := 1 } c).usage = 0
    rw [Function.update_noteq hcne]
    exact g4 c (by omega)

theorem InvG_createStateSecond (s : SharedResources)
    (hG : InvG s) (h1 : s.numberPhilosophers = 1) :
    InvG (createStateSecond s) := by
  obtain ⟨g1, g2, g3, g4⟩ := hG
  have v0 : (slotOf 0 : Fin 7).val = 0 := rfl
  have v1 : (slotOf 1 : Fin 7).val = 1 := rfl
  have hgz : s.maxAllowedEating = 0 ∧ countEating s = 0 := by
    rw [h1] at g1
    omega
  have hallNE : ∀ i : Fin 7, (s.philosophers i).base.state ≠ .EATING :=
    (countEating_eq_zero s).mp hgz.2
  have hphil : (createStateSecond s).philosophers
      = Function.update (Function.update s.philosophers (slotOf 0)
          { s.philosophers (slotOf 0) with rightChopstick := some (slotOf 1) })
        (slotOf 1) (newPhilosopherLater 1) := rfl
  have hallNE2 : ∀ i : Fin 7,
      ((createStateSecond s).philosophers i).base.state ≠ .EATING := by
    intro i
    rw [hphil]
    by_cases hi1 : i = slotOf 1
    · subst hi1
      rw [Function.update_same]
      simp [newPhilosopherLater]
    · rw [Function.update_noteq hi1]
      by_cases hi0 : i = slotOf 0
      · subst hi0
        rw [Function.update_same]
        exact hallNE (slotOf 0)
      · rw [Function.update_noteq hi0]
        exact hallNE i
  have hE2 : countEating (createStateSecond s) = 0 := by
    rw [countEating_eq_zero]
    exact hallNE2
  have hH2 : ∀ c : Fin 7, holders (createStateSecond s) c = 0 := by
    intro c
    rw [holders_eq_zero]
    exact fun i hcontra => hallNE2 i hcontra.1
  have hHold : ∀ c : Fin 7, holders s c = 0 := by
    intro c
    rw [holders_eq_zero]
    exact fun i hcontra => hallNE i hcontra.1
  refine ⟨?_, fun i _ => hallNE2 i, ?_, ?_⟩
  · show s.maxAllowedEating + 1 + countEating (createStateSecond s)
      = (s.numberPhilosophers + 1) / 2
    omega
  · intro c hc
    have hcnum : c.val < s.numberPhilosophers + 1 := hc
    show (Function.update s.chopsticks (slotOf 1)
      { id := 2, usage := 1 } c).usage + holders (createStateSecond s) c = 1
    rw [hH2]
    by_cases hceq : c = slotOf 1
    · subst hceq
      rw [Function.update_same]
    · rw [Function.update_noteq hceq]
      have hcv : c.val < 1 := by
        have : c.val ≠ 1 := fun hv => hceq (Fin.ext (by omega))
        omega
      have hval := g3 c (by omega)
      rw [hHold c] at hval
      omega
  · intro c hc
    have hcnum : s.numberPhilosophers + 1 ≤ c.val := hc
    have hcne : c ≠ slotOf 1 := by
      intro hcontra
      subst hcontra
      omega
    show (Function.update s.chopsticks (slotOf 1) { id := 2, usage := 1 } c).usage = 0
    rw [Function.update_noteq hcne]
    exact g4 c (by omega)

theorem countEating_update_nonEating (s s1 : SharedResources) (m : Fin 7)
    (v : ServerPhilosopher)
    (h : s1.philosophers = Function.update s.philosophers m v)
    (hold : (s.philosophers m).base.state ≠ .EATING)
    (hnew : v.base.state ≠ .EATING) :
    countEating s1 = countEating s := by
  have hb := countEating_update s s1 m v h
  rw [if_neg hold, if_neg hnew] at hb
  omega

theorem holders_update_nonEating (s s1 : SharedResources) (m : Fin 7)
    (v : ServerPhilosopher)
    (h : s1.philosophers = Function.update s.philosophers m v)
    (hold : (s.philosophers m).base.state ≠ .EATING)
    (hnew : v.base.state ≠ .EATING) (c : Fin 7) :
    holders s1 c = holders s c := by
  have hb := holders_update s s1 m v c h
  rw [if_neg (fun hcontra => hold hcontra.1),
    if_neg (fun hcontra => hnew hcontra.1)] at hb
  omega

theorem InvG_createStateLater (s : SharedResources) (c : Fin 7)
    (hS : InvS s) (hG : InvG s)
    (h2 : 2 ≤ s.numberPhilosophers) (hN : s.numberPhilosophers < 7)
    (hcr : (s.philosophers (slotOf (s.numberPhilosophers - 1))).rightChopstick = some c)
    (hu : (Function.update s.chopsticks (slotOf s.numberPhilosophers)
        { id := (s.numberPhilosophers : Int) + 1, usage := 1 } c).usage ≠ 0) :
    InvG (createStateLater s c) := by
  obtain ⟨s1, s2, s3, s4, s5, s6⟩ := hS
  obtain ⟨g1, g2, g3, g4⟩ := hG
  have vN : (slotOf s.numberPhilosophers).val = s.numberPhilosophers := by
    rw [slotOf_eq _ hN]
  have vP : (slotOf (s.numberPhilosophers - 1)).val = s.numberPhilosophers - 1 := by
    rw [slotOf_eq _ (by omega)]
  have hcfacts := s5 (slotOf (s.numberPhilosophers - 1)) c hcr
  have hcN : c.val < s.numberPhilosophers := hcfacts.1
  have hcSN : c ≠ slotOf s.numberPhilosophers := by
    intro hcontra
    subst hcontra
    omega
  have hSNnec : slotOf s.numberPhilosophers ≠ c := Ne.symm hcSN
  have hSPSN : slotOf s.numberPhilosophers ≠ slotOf (s.numberPhilosophers - 1) := by
    intro hcontra
    have : (slotOf s.numberPhilosophers).val
        = (slotOf (s.numberPhilosophers - 1)).val := by rw [hcontra]
    omega
  rw [Function.update_noteq hcSN] at hu
  have hg3c := g3 c hcN
  have hc1 : (s.chopsticks c).usage = 1 ∧ holders s c = 0 := by omega
  have prevNE : (s.philosophers (slotOf (s.numberPhilosophers - 1))).base.state
      ≠ .EATING := by
    intro hcontra
    have := holders_pos s c (slotOf (s.numberPhilosophers - 1)) hcontra (Or.inr hcr)
    omega
  have hSNempty := s3 (slotOf s.numberPhilosophers) (by omega)
  have hSNne : (s.philosophers (slotOf s.numberPhilosophers)).base.state ≠ .EATING :=
    g2 (slotOf s.numberPhilosophers) (by omega)
  have hnewNE : (newPhilosopherLater s.numberPhilosophers).base.state ≠ .EATING := by
    simp [newPhilosopherLater]
  -- the store after the predecessor repoint only
  have hmidE : countEating { s with philosophers := Function.update s.philosophers (slotOf (s.numberPhilosophers - 1)) { s.philosophers (slotOf (s.numberPhilosophers - 1)) with rightChopstick := some (slotOf s.numberPhilosophers) } } = countEating s :=
    countEating_update_nonEating s _ _ _ rfl prevNE prevNE
  have hmidSN : ({ s with philosophers := Function.update s.philosophers (slotOf (s.numberPhilosophers - 1)) { s.philosophers (slotOf (s.numberPhilosophers - 1)) with rightChopstick := some (slotOf s.numberPhilosophers) } } : SharedResources).philosophers (slotOf s.numberPhilosophers) = s.philosophers (slotOf s.numberPhilosophers) :=
    Function.update_noteq hSPSN _ _
  have hE : countEating (createStateLater s c) = countEating s := by
    rw [← hmidE]
    refine countEating_update_nonEating _ _ (slotOf s.numberPhilosophers)
      (newPhilosopherLater s.numberPhilosophers) rfl ?_ hnewNE
    rw [hmidSN]
    exact hSNne
  have hHold : ∀ c2 : Fin 7, holders (createStateLater s c) c2 = holders s c2 := by
    intro c2
    have hstep2 := holders_update_nonEating s { s with philosophers := Function.update s.philosophers (slotOf (s.numberPhilosophers - 1)) { s.philosophers (slotOf (s.numberPhilosophers - 1)) with rightChopstick := some (slotOf s.numberPhilosophers) } } (slotOf (s.numberPhilosophers - 1)) { s.philosophers (slotOf (s.numberPhilosophers - 1)) with rightChopstick := some (slotOf s.numberPhilosophers) } rfl prevNE prevNE c2
    rw [← hstep2]
    refine holders_update_nonEating _ _ (slotOf s.numberPhilosophers)
      (newPhilosopherLater s.numberPhilosophers) rfl ?_ hnewNE c2
    rw [hmidSN]
    exact hSNne
  have hnum : (createStateLater s c).numberPhilosophers = s.numberPhilosophers + 1 := rfl
  -- chopstick usage values in the new store
  have husc : ((createStateLater s c).chopsticks c).usage
      = (s.chopsticks c).usage - 1 + 1 := by
    show ((Function.update (Function.update (Function.update s.chopsticks
      (slotOf s.numberPhilosophers)
      { id := (s.numberPhilosophers : Int) + 1, usage := 1 }) c _) c _) c).usage = _
    rw [Function.update_same]
    show ((Function.update (Function.update s.chopsticks (slotOf s.numberPhilosophers)
      { id := (s.numberPhilosophers : Int) + 1, usage := 1 }) c _) c).usage + 1 = _
    rw [Function.update_same]
    show ((Function.update s.chopsticks (slotOf s.numberPhilosophers)
      { id := (s.numberPhilosophers : Int) + 1, usage := 1 }) c).usage - 1 + 1 = _
    rw [Function.update_noteq hcSN]
  have husSN : ((createStateLater s c).chopsticks (slotOf s.numberPhilosophers)).usage
      = 1 := by
    show ((Function.update (Function.update (Function.update s.chopsticks
      (slotOf s.numberPhilosophers)
      { id := (s.numberPhilosophers : Int) + 1, usage := 1 }) c _) c _)
        (slotOf s.numberPhilosophers)).usage = _
    rw [Function.update_noteq hSNnec, Function.update_noteq hSNnec,
      Function.update_same]
  have huso : ∀ c2 : Fin 7, c2 ≠ c → c2 ≠ slotOf s.numberPhilosophers →
      ((createStateLater s c).chopsticks c2).usage = (s.chopsticks c2).usage := by
    intro c2 h2c h2SN
    show ((Function.update (Function.update (Function.update s.chopsticks
      (slotOf s.numberPhilosophers)
      { id := (s.numberPhilosophers : Int) + 1, usage := 1 }) c _) c _) c2).usage = _
    rw [Function.update_noteq h2c, Function.update_noteq h2c,
      Function.update_noteq h2SN]
  have hHSN : holders s (slotOf s.numberPhilosophers) = 0 := by
    rw [holders_eq_zero]
    intro i hcontra
    rcases Nat.lt_or_ge i.val s.numberPhilosophers with hilt | hige
    · rcases hcontra.2 with hadj | hadj
      · obtain ⟨l, hl, hlb⟩ := s4 i hilt
        have : l = slotOf s.numberPhilosophers :=
          Option.some.inj (hl.symm.trans hadj)
        subst this
        omega
      · have := (s5 i (slotOf s.numberPhilosophers) hadj).1
        omega
    · rcases hcontra.2 with hadj | hadj
      · rw [(s3 i (by omega)).1] at hadj
        exact absurd hadj (by simp)
      · rw [(s3 i (by omega)).2] at hadj
        exact absurd hadj (by simp)
  refine ⟨?_, ?_, ?_, ?_⟩
  · show (if (s.numberPhilosophers + 1) % 2 == 0 then s.maxAllowedEating + 1
      else s.maxAllowedEating) + countEating (createStateLater s c)
      = (s.numberPhilosophers + 1) / 2
    rw [hE]
    by_cases hpar : ((s.numberPhilosophers + 1) % 2 == 0) = true
    · rw [if_pos hpar]
      simp only [beq_iff_eq] at hpar
      omega
    · rw [if_neg hpar]
      simp only [beq_iff_eq] at hpar
      omega
  · intro i hi
    rw [hnum] at hi
    show (Function.update (Function.update s.philosophers
      (slotOf (s.numberPhilosophers - 1))
      { s.philosophers (slotOf (s.numberPhilosophers - 1)) with
        rightChopstick := some (slotOf s.numberPhilosophers) })
      (slotOf s.numberPhilosophers)
      (newPhilosopherLater s.numberPhilosophers) i).base.state ≠ .EATING
    have hiSN : i ≠ slotOf s.numberPhilosophers := by
      intro hcontra
      subst hcontra
      omega
    have hiSP : i ≠ slotOf (s.numberPhilosophers - 1) := by
      intro hcontra
      subst hcontra
      omega
    rw [Function.update_noteq hiSN, Function.update_noteq hiSP]
    exact g2 i (by omega)
  · intro c2 hc2
    rw [hnum] at hc2
    show ((createStateLater s c).chopsticks c2).usage
      + holders (createStateLater s c) c2 = 1
    rw [hHold c2]
    by_cases h2SN : c2 = slotOf s.numberPhilosophers
    · subst h2SN
      rw [husSN, hHSN]
    · by_cases h2c : c2 = c
      · subst h2c
        rw [husc]
        omega
      · rw [huso c2 h2c h2SN]
        have hc2N : c2.val < s.numberPhilosophers := by
          have : c2.val ≠ s.numberPhilosophers := fun hv => h2SN (Fin.ext (by omega))
          omega
        exact g3 c2 hc2N
  · intro c2 hc2
    rw [hnum] at hc2
    have h2SN : c2 ≠ slotOf s.numberPhilosophers := by
      intro hcontra
      subst hcontra
      omega
    have h2c : c2 ≠ c := by
      intro hcontra
      subst hcontra
      omega
    show ((createStateLater s c).chopsticks c2).usage = 0
    rw [huso c2 h2c h2SN]
    exact g4 c2 (by omega)

theorem InvG_attach : InvG attachSharedResources := by
  refine ⟨by decide, by decide, ?_, ?_⟩ <;> decide

theorem InvG_step (s s1 : SharedResources) (op : Op) (hS : InvS s) (hG : InvG s)
    (hack : ackOkB s op = true) (hstep : step s op = some s1) : InvG s1 := by
  have hcne : s.philosopherCreationProcess ≠ 0 := by
    rw [hS.2.1]
    omega
  cases op with
  | create =>
    simp only [step] at hstep
    cases hcr : createPhilosopher s with
    | none =>
      rw [hcr] at hstep
      exact absurd hstep (by simp)
    | some res =>
      rw [hcr] at hstep
      simp only [Option.map_some', Option.some.injEq] at hstep
      subst hstep
      rcases Nat.lt_or_ge s.numberPhilosophers 2 with hlt | hge
      · by_cases h0 : s.numberPhilosophers = 0
        · rw [createPhilosopher_first s hcne h0] at hcr
          simp only [Option.some.injEq] at hcr
          rw [← hcr]
          exact InvG_createStateFirst s hG h0
        · have h1 : s.numberPhilosophers = 1 := by omega
          rw [createPhilosopher_second s hcne h1] at hcr
          simp only [Option.some.injEq] at hcr
          rw [← hcr]
          exact InvG_createStateSecond s hG h1
      · obtain ⟨-, hN, c, hcrr, hu, hres⟩ := createPhilosopher_later_inv s res hge hcr
        rw [hres]
        exact InvG_createStateLater s c hS hG hge hN hcrr hu
  | update p =>
    simp only [step] at hstep
    cases hu : updatePhilosopher p s with
    | none =>
      rw [hu] at hstep
      exact absurd hstep (by simp)
    | some res =>
      rw [hu] at hstep
      simp only [Option.map_some', Option.some.injEq] at hstep
      subst hstep
      cases hfind : getPhilosopherFromId p.id s.philosophers with
      | none =>
        rw [updatePhilosopher_notFound p s hfind] at hu
        simp only [Option.some.injEq] at hu
        rw [← hu]
        exact InvG_notFoundState s hG
      | some m =>
        cases hp : p.state with
        | THINKING =>
          by_cases hst : (s.philosophers m).base.state = .EATING
          · obtain ⟨l, r, hl, hr, hres⟩ := update_release_inv p s res m hp hfind hst hu
            rw [hres]
            exact InvG_releaseState p s m l r hS hG hp hst hl hr
          · rw [updatePhilosopher_thinkingPlain p s m hfind hp hst] at hu
            simp only [Option.some.injEq] at hu
            rw [← hu]
            refine InvG_overwriteState p s m ?_ hG
            rw [hp]
            exact ⟨fun hcontra => absurd hcontra (by decide),
              fun hcontra => absurd hcontra hst⟩
        | EATING =>
          have hacked : (s.philosophers m).base.state = .EATING := by
            simp only [ackOkB, hp, hfind] at hack
            simpa using hack
          rw [updatePhilosopher_ackEating p s m hfind hp] at hu
          simp only [Option.some.injEq] at hu
          rw [← hu]
          refine InvG_overwriteState p s m ?_ hG
          rw [hp]
          exact ⟨fun _ => hacked, fun _ => rfl⟩
        | HUNGRY =>
          obtain ⟨l, r, hl, hr, hg, hul, hur, hres⟩ :=
            update_hungry_inv p s res m hp hfind hu
          rw [hres]
          exact InvG_hungryState p s m l r hS hG hl hr hg hul hur

theorem Inv_run (ops : List Op) (s s1 : SharedResources)
    (hS : InvS s) (hG : InvG s) (hack : acksOnlyB s ops = true)
    (hrun : run s ops = some s1) : InvG s1 := by
  induction ops generalizing s with
  | nil =>
    unfold run at hrun
    simp only [Option.some.injEq] at hrun
    rw [← hrun]
    exact hG
  | cons op ops ih =>
    unfold run at hrun
    unfold acksOnlyB at hack
    rw [Bool.and_eq_true] at hack
    cases hst : step s op with
    | none =>
      rw [hst] at hrun
      exact absurd hrun (by simp)
    | some smid =>
      rw [hst] at hrun
      simp only [Option.some_bind] at hrun
      have hack2 : acksOnlyB smid ops = true := by
        have := hack.2
        rw [hst] at this
        exact this
      exact ih smid (InvS_step s smid op hS hst)
        (InvG_step s smid op hS hG hack.1 hst) hack2 hrun

/-! ### Claims -/

/-- C1, as stated, is false on the code: an incoming-EATING update on a
participant stored THINKING marks it EATING without decrementing the gate,
so after [create, create, update(1, EATING)] the gate value no longer
equals floor(count/2) minus the number of stored-EATING participants. -/
theorem C1_counterexample : c1CexB = false := by decide

/-- C1 (amended): for every serialized trace of createPhilosopher and
updatePhilosopher operations in which every incoming-EATING update is an
acknowledgment of a participant already stored EATING, at every quiescent
point the admission gate value plus the number of stored-EATING slots
equals floor(numberPhilosophers / 2). -/
theorem C1_theorem (ops : List Op) (s : SharedResources)
    (hack : acksOnlyB attachSharedResources ops = true)
    (hrun : run attachSharedResources ops = some s) :
    s.maxAllowedEating + countEating s = s.numberPhilosophers / 2 :=
  (Inv_run ops attachSharedResources s InvS_attach InvG_attach hack hrun).1

/-- C1 witness: the amended identity holds on the concrete completed trace
[create, create, update(1, HUNGRY)]. -/
theorem C1_theorem_witness :
    acksOnlyB attachSharedResources c1WitnessOps = true ∧
    (run attachSharedResources c1WitnessOps).map
      (fun s => decide (s.maxAllowedEating + countEating s
        = s.numberPhilosophers / 2)) = some true := by
  refine ⟨by decide, ?_⟩
  cases hr : run attachSharedResources c1WitnessOps with
  | none =>
    have hs : (run attachSharedResources c1WitnessOps).isSome = true := by decide
    rw [hr] at hs
    exact absurd hs (by decide)
  | some s =>
    simp only [Option.map_some', Option.some.injEq]
    exact decide_eq_true (C1_theorem c1WitnessOps s (by decide) hr)

/-- C2, as stated, is false on the code: after a single createPhilosopher
call the only created participant has a NULL right reference, so the ring
property fails for that sequence. -/
theorem C2_counterexample : c2CexB = false := by decide

/-- C2 (amended): for every sequence of at least two and at most capacity
createPhilosopher calls on a fresh store, every created participant has
non-null left and right references, participant i's right chopstick equals
participant i+1's left chopstick, the last participant's right chopstick
equals the first participant's left chopstick, and the right-reference
successor graph is a single cycle covering exactly the created
participants' left chopsticks. -/
theorem C2_theorem : ∀ k : Fin 6, (createN (k.val + 2)).map ringOkB = some true := by
  decide

/-- C3: a completed updatePhilosopher call with desired state HUNGRY on an
existing participant first overwrites the stored base, then acquires the
gate, the left chopstick and the right chopstick in that order (visible in
the appended event trace), sets the stored state to EATING with the timer
reset to 0, and returns the now-EATING participant (a non-none result). -/
theorem C3_theorem (p : Philosopher) (s : SharedResources) (m : Fin 7)
    (r : Option ServerPhilosopher) (s1 : SharedResources)
    (hp : p.state = .HUNGRY)
    (hm : getPhilosopherFromId p.id s.philosophers = some m)
    (hdone : updatePhilosopher p s = some (r, s1)) :
    ∃ l rr : Fin 7,
      (s.philosophers m).leftChopstick = some l ∧
      (s.philosophers m).rightChopstick = some rr ∧
      r = some (grantedPhilosopher p s m) ∧
      (s1.philosophers m).base = { id := p.id, state := .EATING, stateTimer := 0 } ∧
      s1.maxAllowedEating + 1 = s.maxAllowedEating ∧
      s1.events = s.events ++ [Event.overwriteBase m p, Event.acqGate,
        Event.acqChop l, Event.acqChop rr] := by
  obtain ⟨l, rr, hl, hr, hg, hul, hur, hres⟩ :=
    update_hungry_inv p s (r, s1) m hp hm hdone
  rw [Prod.mk.injEq] at hres
  obtain ⟨hr1, hs1⟩ := hres
  refine ⟨l, rr, hl, hr, hr1, ?_, ?_, ?_⟩
  · rw [hs1]
    show (Function.update s.philosophers m { s.philosophers m with
      base := { id := p.id, state := .EATING, stateTimer := 0 } } m).base
      = { id := p.id, state := .EATING, stateTimer := 0 }
    rw [Function.update_same]
  · rw [hs1]
    show s.maxAllowedEating - 1 + 1 = s.maxAllowedEating
    omega
  · rw [hs1]
    rfl

/-- C3 witness: the Hungry grant on participant 1 of a two-participant
store returns the EATING participant and decrements the gate. -/
theorem C3_theorem_witness :
    c3Update.state = PhilosopherState.HUNGRY ∧
    getPhilosopherFromId c3Update.id c3S.philosophers = some 0 ∧
    (updatePhilosopher c3Update c3S).map (fun rs => rs.1)
      = some (some (grantedPhilosopher c3Update c3S 0)) ∧
    (updatePhilosopher c3Update c3S).map (fun rs => rs.2.maxAllowedEating + 1)
      = some c3S.maxAllowedEating := by
  refine ⟨rfl, by decide, ?_, ?_⟩ <;>
    (cases hr : updatePhilosopher c3Update c3S with
     | none =>
       have hs : (updatePhilosopher c3Update c3S).isSome = true := by decide
       rw [hr] at hs
       exact absurd hs (by decide)
     | some rs =>
       obtain ⟨r, s1⟩ := rs
       obtain ⟨l, rr, hl, hrr, hr1, hbase, hgate, hevents⟩ :=
         C3_theorem c3Update c3S 0 r s1 rfl (by decide) hr
       simp [hr1, hgate])

/-- C4: an updatePhilosopher call whose identity matches no table slot
returns none, appends exactly one error record, and changes no participant
state, no chopstick semaphore and no gate permit. -/
theorem C4_theorem (p : Philosopher) (s : SharedResources)
    (h : getPhilosopherFromId p.id s.philosophers = none) :
    updatePhilosopher p s = some (none, notFoundState s) ∧
    (notFoundState s).philosophers = s.philosophers ∧
    (notFoundState s).chopsticks = s.chopsticks ∧
    (notFoundState s).maxAllowedEating = s.maxAllowedEating ∧
    (notFoundState s).events = s.events ∧
    (notFoundState s).logs = s.logs ++ [LogMsg.errorNotFound] :=
  ⟨updatePhilosopher_notFound p s h, rfl, rfl, rfl, rfl, rfl⟩

/-- C4 witness: on a fresh store no slot holds id 5, and the update aborts
with exactly the error record appended. -/
theorem C4_theorem_witness :
    getPhilosopherFromId (5 : Int) attachSharedResources.philosophers = none ∧
    updatePhilosopher { id := 5, state := .THINKING, stateTimer := 0 }
      attachSharedResources = some (none, notFoundState attachSharedResources) ∧
    (notFoundState attachSharedResources).logs = [LogMsg.errorNotFound] :=
  ⟨by decide,
   (C4_theorem { id := 5, state := .THINKING, stateTimer := 0 }
     attachSharedResources (by decide)).1,
   by decide⟩

/-- C5: createChopstick initializes a fresh chopstick with an unlocked
semaphore (value 1) at slot id-1 and logs the creation, but it never
increments numberChopsticks, contradicting the claim, the header
documentation of SharedResources.h and the semaphore-destruction loop of
cleanup in Response.c. -/
theorem C5_theorem (id : Int) (s : SharedResources) (h1 : 1 ≤ id) (h7 : id ≤ 7) :
    (createChopstick id s).2 = some (slotOf (id - 1).toNat) ∧
    (createChopstick id s).1.chopsticks (slotOf (id - 1).toNat)
      = { id := id, usage := 1 } ∧
    (createChopstick id s).1.logs = s.logs ++ [LogMsg.chopstickCreated id] ∧
    (createChopstick id s).1.numberChopsticks = s.numberChopsticks := by
  unfold createChopstick
  rw [if_pos ⟨h1, h7⟩]
  refine ⟨rfl, ?_, rfl, rfl⟩
  show Function.update s.chopsticks (slotOf (id - 1).toNat)
    { id := id, usage := 1 } (slotOf (id - 1).toNat) = { id := id, usage := 1 }
  rw [Function.update_same]

/-- C5 witness: creating chopstick 1 on a freshly attached store stores an
unlocked chopstick at slot 0 yet leaves numberChopsticks at 0. -/
theorem C5_theorem_witness :
    (createChopstick 1 attachSharedResources).1.chopsticks (slotOf 0)
      = { id := 1, usage := 1 } ∧
    (createChopstick 1 attachSharedResources).1.numberChopsticks = 0 :=
  ⟨(C5_theorem 1 attachSharedResources (by decide) (by decide)).2.1,
   (C5_theorem 1 attachSharedResources (by decide) (by decide)).2.2.2⟩

/-- C6, as stated, is false on the code: a Hungry-to-Hungry update is not a
plain overwrite — at a store whose participant 1 is stored HUNGRY, the
incoming-HUNGRY update runs the full acquisition path and decrements the
admission gate. -/
theorem C6_counterexample : c6PremiseB = true ∧ c6NoSideEffectB = false := by
  constructor <;> decide

/-- C6 (amended): a Thinking-to-Thinking update (stored state THINKING,
incoming state THINKING) is a plain overwrite of the stored base with no
resource side effects: chopstick semaphores and the admission gate are
untouched and no semaphore event is emitted; only the base overwrite is
recorded. -/
theorem C6_theorem (p : Philosopher) (s : SharedResources) (m : Fin 7)
    (hm : getPhilosopherFromId p.id s.philosophers = some m)
    (hp : p.state = .THINKING)
    (hst : (s.philosophers m).base.state = .THINKING) :
    updatePhilosopher p s = some (none, overwriteState p s m) ∧
    (overwriteState p s m).chopsticks = s.chopsticks ∧
    (overwriteState p s m).maxAllowedEating = s.maxAllowedEating ∧
    (overwriteState p s m).events = s.events ++ [Event.overwriteBase m p] :=
  ⟨updatePhilosopher_thinkingPlain p s m hm hp (by rw [hst]; decide),
   rfl, rfl, rfl⟩

/-- C6 witness: a Thinking-to-Thinking update on the single participant of
a one-participant store is a plain overwrite. -/
theorem C6_theorem_witness :
    getPhilosopherFromId 1 c6WitnessS.philosophers = some 0 ∧
    (c6WitnessS.philosophers 0).base.state = PhilosopherState.THINKING ∧
    updatePhilosopher { id := 1, state := .THINKING, stateTimer := 7 } c6WitnessS
      = some (none, overwriteState { id := 1, state := .THINKING, stateTimer := 7 }
          c6WitnessS 0) :=
  ⟨by decide, by decide,
   (C6_theorem { id := 1, state := .THINKING, stateTimer := 7 } c6WitnessS 0
     (by decide) rfl (by decide)).1⟩

/-- C7, as stated, is false on the code: after two joins the chopstick
shared between participant 1's right and participant 2's left has id 2,
not id 1. -/
theorem C7_counterexample : c7ClaimB = false := by decide

/-- C7 (amended): after exactly two createPhilosopher calls on a fresh
store, participant 1's right chopstick and participant 2's left chopstick
are the same chopstick, that chopstick has id 2, and participant 2's right
chopstick equals participant 1's left chopstick. -/
theorem C7_theorem : c7AmendedB = true := by decide

/-- C8, as stated, is false on the code: while the first participant is
still the only one joined, its right chopstick reference is NULL. -/
theorem C8_counterexample : c8CexB = false := by decide

/-- C8 (amended): after any completed serialized trace of operations from a
fresh store, once at least two participants have joined, every joined
participant has non-null left and right chopstick references. -/
theorem C8_theorem (ops : List Op) (s : SharedResources)
    (hrun : run attachSharedResources ops = some s)
    (h2 : 2 ≤ s.numberPhilosophers) :
    ∀ i : Fin 7, i.val < s.numberPhilosophers →
      (s.philosophers i).leftChopstick ≠ none ∧
      (s.philosophers i).rightChopstick ≠ none := by
  have hS := InvS_run ops attachSharedResources s InvS_attach hrun
  intro i hi
  constructor
  · obtain ⟨l, hl, -⟩ := hS.2.2.2.1 i hi
    rw [hl]
    simp
  · exact hS.2.2.2.2.2 h2 i hi

/-- C8 witness: after two joins both participants have non-null left and
right references. -/
theorem C8_theorem_witness :
    (run attachSharedResources [Op.create, Op.create]).map
      (fun s => decide (2 ≤ s.numberPhilosophers ∧
        ∀ i : Fin 7, i.val < s.numberPhilosophers →
          (s.philosophers i).leftChopstick ≠ none ∧
          (s.philosophers i).rightChopstick ≠ none)) = some true := by
  cases hr : run attachSharedResources [Op.create, Op.create] with
  | none =>
    have hs : (run attachSharedResources [Op.create, Op.create]).isSome = true := by
      decide
    rw [hr] at hs
    exact absurd hs (by decide)
  | some s =>
    have hn : s.numberPhilosophers = 2 := by
      have h0 : (run attachSharedResources [Op.create, Op.create]).map
          (fun x => x.numberPhilosophers) = some 2 := by decide
      rw [hr] at h0
      simpa using h0
    have key := C8_theorem [Op.create, Op.create] s hr (by omega)
    simp only [Option.map_some', Option.some.injEq]
    exact decide_eq_true ⟨by omega, key⟩

/-- C9: identity 0 matches the first unoccupied slot whenever fewer than
MAX_PHILOSOPHERS participants exist, the unknown-identity error branch is
skipped, and the update mutates that unoccupied slot, logging an ordinary
action record instead of an error. -/
theorem C9_theorem : ∀ k : Fin 7, c9CheckB k = true := by decide

/-- C10: after k createPhilosopher calls, participant ids are exactly 1..k
stored at slots 0..k-1, participant i's left chopstick is the chopstick
with id i at chopstick slot i-1, slots beyond k are still zeroed, and
exactly k chopsticks have been created. -/
theorem C10_theorem : ∀ k : Fin 8, c10CheckB k = true := by decide

end DiningServer
